import Mathlib

/-!
# Intervention optimizer: shallow embedding

Embedding of the evaluation-and-ranking pipeline of the intervention
optimizer (src/scenarios.py, src/constraints.py, src/costs.py,
src/model.py, src/explain.py).

Modelling conventions:
* numeric columns (pandas float64) are modelled as `ℚ` with exact
  arithmetic;
* a data frame is a `List Row` in row order; every pipeline stage is a
  map/filter/sort over that list, mirroring the whole-table column
  assignments of the source;
* `sort_values` on several key columns uses numpy lexsort, a stable
  sort; since a stable sort by a total preorder is unique, it is
  modelled by `List.insertionSort` on the corresponding lexicographic
  preorder;
* `groupby(...).transform(...)` and `groupby(...).cumcount()` keep row
  order and are modelled by per-row recomputation over the list,
  respectively by a counting pass (`addRanks`);
* the optional / nullable `service_premium_cap` column is an
  `Option ℚ` on the scenario record; both the missing-column and the
  null case resolve to the default 1.15 (`Option.getD`).
-/

namespace InterventionOptimizer

/-- The five mitigation options, in the order of `OPTIONS` in
src/scenarios.py. -/
inductive OptKind where
  | do_nothing
  | overtime
  | temp_labor
  | reroute
  | outsource
deriving DecidableEq

/-- `OPTIONS` from src/scenarios.py. -/
def OPTIONS : List OptKind :=
  [.do_nothing, .overtime, .temp_labor, .reroute, .outsource]

/-- One input record (one row of the input CSV), with the columns read
by the pipeline.  `service_premium_cap` is optional/nullable. -/
structure Scn where
  scenario_id : Nat
  forecast_demand_units : ℚ
  available_capacity_units : ℚ
  sla_target_fill_rate : ℚ
  max_ot_hours : ℚ
  ot_units_per_hour : ℚ
  ot_cost_per_hour : ℚ
  max_temp_units : ℚ
  temp_cost_per_unit : ℚ
  max_reroute_units : ℚ
  reroute_cost_per_unit : ℚ
  max_outsource_units : ℚ
  outsourcing_cost_per_unit : ℚ
  late_cost_per_unit : ℚ
  sla_breach_penalty : ℚ
  service_premium_cap : Option ℚ
deriving DecidableEq

/-- One (scenario, option) evaluation row.  The input columns are kept
in `scn`; the derived columns are added by the successive stages, with
0 / false / "" standing for a column not yet assigned. -/
structure Row where
  scn : Scn
  option : OptKind
  gap_units : ℚ
  max_allowed_unmet_units : ℚ
  recovered_units : ℚ
  unmet_units : ℚ
  feasible : Bool
  sla_met : Bool
  ot_hours_used : ℚ
  intervention_cost : ℚ
  service_cost : ℚ
  total_cost : ℚ
  baseline_total_cost : ℚ
  premium_cap_total_cost : ℚ
  rank : Nat
  explanation : String
deriving DecidableEq

/-- The `scenario_id` column of an evaluation row. -/
def Row.scenario_id (r : Row) : Nat := r.scn.scenario_id

/-- One row of `simulate_options` (src/scenarios.py): `gap_units`,
`max_allowed_unmet_units`, the per-option `recovered_units`
(`.clip`-style `max 0` for the gap, `min` against the option cap), and
`unmet_units = (gap - recovered).clip(lower=0)`. -/
def simRow (s : Scn) (o : OptKind) : Row :=
  let gap : ℚ := max 0 (s.forecast_demand_units - s.available_capacity_units)
  let recovered : ℚ :=
    match o with
    | .do_nothing => 0
    | .overtime => min gap (s.max_ot_hours * s.ot_units_per_hour)
    | .temp_labor => min gap s.max_temp_units
    | .reroute => min gap s.max_reroute_units
    | .outsource => min gap s.max_outsource_units
  { scn := s
    option := o
    gap_units := gap
    max_allowed_unmet_units := s.forecast_demand_units * (1 - s.sla_target_fill_rate)
    recovered_units := recovered
    unmet_units := max 0 (gap - recovered)
    feasible := true
    sla_met := false
    ot_hours_used := 0
    intervention_cost := 0
    service_cost := 0
    total_cost := 0
    baseline_total_cost := 0
    premium_cap_total_cost := 0
    rank := 0
    explanation := "" }

/-- `simulate_options` (src/scenarios.py): one row per
(scenario, option), options in `OPTIONS` order within each input row. -/
def simulate_options (inputs : List Scn) : List Row :=
  inputs.flatMap fun s => OPTIONS.map (simRow s)

/-- The per-row feasibility flag of `flag_feasible`
(src/constraints.py): `do_nothing` always feasible, `overtime` needs
`max_ot_hours > 0` and `ot_units_per_hour > 0`, the three capped
options need their cap `>= 0`. -/
def flagRow (r : Row) : Row :=
  { r with
    feasible :=
      match r.option with
      | .do_nothing => true
      | .overtime =>
          decide (r.scn.max_ot_hours > 0) && decide (r.scn.ot_units_per_hour > 0)
      | .temp_labor => decide (r.scn.max_temp_units ≥ 0)
      | .reroute => decide (r.scn.max_reroute_units ≥ 0)
      | .outsource => decide (r.scn.max_outsource_units ≥ 0) }

/-- `flag_feasible` (src/constraints.py). -/
def flag_feasible (df : List Row) : List Row := df.map flagRow

/-- The per-row cost/SLA columns of `compute_costs_and_sla`
(src/costs.py).  The overtime-hours division is guarded at a zero
denominator (`replace(0, nan)` followed by `fillna(0.0)`): a zero rate
yields 0 hours, any nonzero rate divides. -/
def costRow (r : Row) : Row :=
  let sla : Bool := decide (r.unmet_units ≤ r.max_allowed_unmet_units)
  let hours : ℚ :=
    if r.scn.ot_units_per_hour = 0 then 0
    else r.recovered_units / r.scn.ot_units_per_hour
  let icost : ℚ :=
    match r.option with
    | .do_nothing => 0
    | .overtime => hours * r.scn.ot_cost_per_hour
    | .temp_labor => r.recovered_units * r.scn.temp_cost_per_unit
    | .reroute => r.recovered_units * r.scn.reroute_cost_per_unit
    | .outsource => r.recovered_units * r.scn.outsourcing_cost_per_unit
  let scost : ℚ :=
    r.unmet_units * r.scn.late_cost_per_unit +
      (if sla then 0 else r.scn.sla_breach_penalty)
  { r with
    sla_met := sla
    ot_hours_used := if r.option = .overtime then hours else 0
    intervention_cost := icost
    service_cost := scost
    total_cost := icost + scost }

/-- `compute_costs_and_sla` (src/costs.py). -/
def compute_costs_and_sla (df : List Row) : List Row := df.map costRow

/-- The per-row explanation string of `build_explanations`
(src/explain.py).  The numeric formatting of the Python f-strings
(`int(round(..))`, `round(.., 1)`) is rendered through `round` on `ℚ`;
the string is presentation-only and read by no later stage. -/
def explainStr (r : Row) : String :=
  let recovered := toString (round r.recovered_units)
  let unmet := toString (round r.unmet_units)
  match r.option with
  | .do_nothing => "No action taken; " ++ unmet ++ " units unmet."
  | .overtime =>
      "Overtime recovers " ++ recovered ++ " units (~" ++
        toString ((round (10 * r.ot_hours_used) : ℤ)) ++ "/10 OT hours)."
  | .temp_labor => "Temp labor recovers " ++ recovered ++ " units."
  | .reroute => "Rerouting recovers " ++ recovered ++ " units."
  | .outsource => "Outsourcing recovers " ++ recovered ++ " units."

/-- The row with its explanation column filled in. -/
def explRow (r : Row) : Row := { r with explanation := explainStr r }

/-- `build_explanations` (src/explain.py): adds the `explanation`
column, changes nothing else. -/
def build_explanations (df : List Row) : List Row := df.map explRow

/-- The premium-cap multiplier of a row: its `service_premium_cap`
input value, with 1.15 as the default for a missing or null value
(src/model.py lines 37-39). -/
def capOf (r : Row) : ℚ := r.scn.service_premium_cap.getD (1.15 : ℚ)

/-- `groupby("scenario_id")["sla_met"].transform("any")` for one
scenario id (src/model.py line 34). -/
def slaAny (feas : List Row) (sid : Nat) : Bool :=
  feas.any fun r => r.scenario_id == sid && r.sla_met

/-- `groupby("scenario_id")["total_cost"].transform("min")` for one
scenario id (src/model.py lines 42 and 60); 0 on an empty group (a
value never read, since `transform` only fills rows of the group). -/
def groupMinCost (rows : List Row) (sid : Nat) : ℚ :=
  match (rows.filter fun r => r.scenario_id == sid).map (fun r => r.total_cost) with
  | [] => 0
  | c :: cs => cs.foldl min c

/-- The baseline/premium-cap column assignment of src/model.py lines
42-43, per row. -/
def updB (feas : List Row) (r : Row) : Row :=
  { r with
    baseline_total_cost := groupMinCost feas r.scenario_id
    premium_cap_total_cost := groupMinCost feas r.scenario_id * capOf r }

/-- src/model.py lines 42-43: the per-scenario baseline
(`transform("min")` over the feasible rows) and the premium cap
(`baseline * service_premium_cap`) as new columns. -/
def withBaseline (feas : List Row) : List Row := feas.map (updB feas)

/-- The lexicographic preorder of
`sort_values(["scenario_id", "total_cost"])` (src/model.py line 48). -/
def leA (a b : Row) : Prop :=
  a.scenario_id < b.scenario_id ∨
    (a.scenario_id = b.scenario_id ∧ a.total_cost ≤ b.total_cost)

/-- The lexicographic preorder of
`sort_values(["scenario_id", "unmet_units", "total_cost"])`
(src/model.py lines 63-66). -/
def leB (a b : Row) : Prop :=
  a.scenario_id < b.scenario_id ∨
    (a.scenario_id = b.scenario_id ∧
      (a.unmet_units < b.unmet_units ∨
        (a.unmet_units = b.unmet_units ∧ a.total_cost ≤ b.total_cost)))

/-- The lexicographic preorder of
`sort_values(["scenario_id", "rank"])` (src/model.py line 80). -/
def leRec (a b : Row) : Prop :=
  a.scenario_id < b.scenario_id ∨
    (a.scenario_id = b.scenario_id ∧ a.rank ≤ b.rank)

instance : DecidableRel leA := fun a b => by unfold leA; exact inferInstance

instance : DecidableRel leB := fun a b => by unfold leB; exact inferInstance

instance : DecidableRel leRec := fun a b => by unfold leRec; exact inferInstance

/-- `groupby("scenario_id").cumcount() + 1`, threading the per-scenario
counts seen so far through the list. -/
def addRanksAux (counts : Nat → Nat) : List Row → List Row
  | [] => []
  | r :: rs =>
      { r with rank := counts r.scenario_id + 1 } ::
        addRanksAux
          (fun sid => if sid = r.scenario_id then counts sid + 1 else counts sid) rs

/-- The `rank` column: `groupby("scenario_id").cumcount() + 1`
(src/model.py lines 49 and 67). -/
def addRanks (l : List Row) : List Row := addRanksAux (fun _ => 0) l

/-- The `options` pipeline of src/model.py lines 27-29: simulate, flag
feasibility, compute costs and SLA. -/
def pipelineRows (inputs : List Scn) : List Row :=
  compute_costs_and_sla (flag_feasible (simulate_options inputs))

/-- `feasible = options[options["feasible"]]` (src/model.py line 31). -/
def feasibleRows (inputs : List Scn) : List Row :=
  (pipelineRows inputs).filter fun r => r.feasible

/-- The feasible rows with the baseline/premium-cap columns added
(src/model.py lines 42-43). -/
def basedRows (inputs : List Scn) : List Row :=
  withBaseline (feasibleRows inputs)

/-- Case A pool (src/model.py lines 46-47): feasible rows of scenarios
where some feasible row meets SLA, restricted to the rows that meet it
themselves. -/
def caseAPool (inputs : List Scn) : List Row :=
  ((basedRows inputs).filter fun r => slaAny (feasibleRows inputs) r.scenario_id).filter
    fun r => r.sla_met

/-- Case A rows, sorted by (scenario_id, total_cost) and ranked
(src/model.py lines 48-49). -/
def caseARows (inputs : List Scn) : List Row :=
  addRanks (List.insertionSort leA (caseAPool inputs))

/-- Case B pool (src/model.py line 52): feasible rows of scenarios
where no feasible row meets SLA. -/
def caseBPool (inputs : List Scn) : List Row :=
  (basedRows inputs).filter fun r => !(slaAny (feasibleRows inputs) r.scenario_id)

/-- The Case B retention (src/model.py lines 55-61): the premium-cap
window, with the global fallback to the per-scenario baseline minimum
when the window empties the whole Case B frame. -/
def caseBKept (inputs : List Scn) : List Row :=
  let pool := caseBPool inputs
  let capped := pool.filter fun r => decide (r.total_cost ≤ r.premium_cap_total_cost)
  if capped.isEmpty then
    pool.filter fun r => decide (r.total_cost = groupMinCost pool r.scenario_id)
  else capped

/-- Case B rows, sorted by (scenario_id, unmet_units, total_cost) and
ranked; the `if not no_sla.empty` guard of src/model.py line 54 skips
the whole block on an empty Case B frame. -/
def caseBRows (inputs : List Scn) : List Row :=
  if (caseBPool inputs).isEmpty then []
  else addRanks (List.insertionSort leB (caseBKept inputs))

/-- `evaluate_all_options` (src/model.py lines 11-75): the Case A and
Case B blocks concatenated, then the explanation column. -/
def evaluate_all_options (inputs : List Scn) : List Row :=
  build_explanations (caseARows inputs ++ caseBRows inputs)

/-- `sorted.groupby("scenario_id").head(1)`: the first row of each
scenario id, in frame order. -/
def dedupBySid : List Row → List Row
  | [] => []
  | r :: rs =>
      r :: dedupBySid (rs.filter fun x => !(x.scenario_id == r.scenario_id))
termination_by l => l.length
decreasing_by
  simp only [List.length_cons]
  exact Nat.lt_succ_of_le (rs.length_filter_le _)

/-- `choose_recommendation` (src/model.py lines 78-83): sort by
(scenario_id, rank), keep the first row per scenario. -/
def choose_recommendation (scored : List Row) : List Row :=
  dedupBySid (List.insertionSort leRec scored)

/-- The recommendation of one scenario: its row in the
recommendations table, if any. -/
def recOf (scored : List Row) (sid : Nat) : Option Row :=
  (choose_recommendation scored).find? fun r => r.scenario_id == sid

/-- Proof-side view of `groupby("scenario_id").cumcount() + 1`
restricted to one group: consecutive ranks from `n` on. -/
def rankSeq (n : Nat) : List Row → List Row
  | [] => []
  | r :: rs => { r with rank := n } :: rankSeq (n + 1) rs

/-- Convenience constructor for concrete input records. -/
def mkS (sid : Nat) (dem cap fill oth otr otc tc tcc rc rcc oc occ late pen : ℚ)
    (prem : Option ℚ) : Scn :=
  { scenario_id := sid, forecast_demand_units := dem, available_capacity_units := cap,
    sla_target_fill_rate := fill, max_ot_hours := oth, ot_units_per_hour := otr,
    ot_cost_per_hour := otc, max_temp_units := tc, temp_cost_per_unit := tcc,
    max_reroute_units := rc, reroute_cost_per_unit := rcc, max_outsource_units := oc,
    outsourcing_cost_per_unit := occ, late_cost_per_unit := late,
    sla_breach_penalty := pen, service_premium_cap := prem }

/-- A scenario whose SLA is achievable: gap 200, allowed unmet 20;
overtime recovers the gap for 500, temp labor for 1000. -/
def exScnA : Scn := mkS 1 1000 800 0.98 10 20 50 200 5 0 4 100 2 10 1000 none

/-- A scenario whose SLA is unachievable: gap 100, allowed unmet 0;
temp labor leaves 60 unmet at cost 100, rerouting 50 unmet at 150
(outside the 115 premium cap), doing nothing 100 unmet at 100. -/
def exScnB : Scn := mkS 2 100 0 1 0 0 0 40 1 50 2 0 0 1 0 none

/-- A Case B scenario with `service_premium_cap = 0.5`: every feasible
row costs 100 while the cap window tops out at 50, so the window
excludes all of its rows. -/
def exScnCapHalf : Scn := mkS 1 100 0 1 0 0 0 0 1 0 2 0 0 1 0 (some 0.5)

/-- A Case B scenario with `service_premium_cap = 2`: its rows (cost
100, window 200) survive the cap window. -/
def exScnCapTwo : Scn := mkS 2 100 0 1 0 0 0 0 1 0 2 0 0 1 0 (some 2)

/-- A scenario with every option cap at 0 and overtime hours/rate 0. -/
def exScnZeroCaps : Scn := mkS 7 10 2 0.9 0 0 1 0 1 0 1 0 1 1 5 none

/-- A scenario with a negative `max_temp_units` (-5) and a gap of 10. -/
def exScnNegCap : Scn := mkS 3 10 0 0.9 0 0 1 (-5) 1 0 1 0 1 1 5 none

/-- A scenario with a negative `ot_units_per_hour` (-2): the overtime
row recovers min(10, 5 * -2) = -10 units and the guarded division
yields -10 / -2 = 5 hours. -/
def exScnNegRate : Scn := mkS 4 10 0 0.9 5 (-2) 3 0 1 0 1 0 1 1 5 none

instance : IsTotal Row leA :=
  ⟨fun a b => by
    unfold leA
    rcases lt_trichotomy a.scenario_id b.scenario_id with h | h | h
    · exact Or.inl (Or.inl h)
    · rcases le_total a.total_cost b.total_cost with hc | hc
      · exact Or.inl (Or.inr ⟨h, hc⟩)
      · exact Or.inr (Or.inr ⟨h.symm, hc⟩)
    · exact Or.inr (Or.inl h)⟩

instance : IsTrans Row leA :=
  ⟨fun a b c hab hbc => by
    unfold leA at *
    rcases hab with h1 | ⟨h1, h1c⟩ <;> rcases hbc with h2 | ⟨h2, h2c⟩
    · exact Or.inl (h1.trans h2)
    · exact Or.inl (h2 ▸ h1)
    · exact Or.inl (h1 ▸ h2)
    · exact Or.inr ⟨h1.trans h2, h1c.trans h2c⟩⟩

instance : IsTotal Row leB :=
  ⟨fun a b => by
    unfold leB
    rcases lt_trichotomy a.scenario_id b.scenario_id with h | h | h
    · exact Or.inl (Or.inl h)
    · rcases lt_trichotomy a.unmet_units b.unmet_units with hu | hu | hu
      · exact Or.inl (Or.inr ⟨h, Or.inl hu⟩)
      · rcases le_total a.total_cost b.total_cost with hc | hc
        · exact Or.inl (Or.inr ⟨h, Or.inr ⟨hu, hc⟩⟩)
        · exact Or.inr (Or.inr ⟨h.symm, Or.inr ⟨hu.symm, hc⟩⟩)
      · exact Or.inr (Or.inr ⟨h.symm, Or.inl hu⟩)
    · exact Or.inr (Or.inl h)⟩

instance : IsTrans Row leB :=
  ⟨fun a b c hab hbc => by
    unfold leB at *
    rcases hab with h1 | ⟨h1, hu1⟩ <;> rcases hbc with h2 | ⟨h2, hu2⟩
    · exact Or.inl (h1.trans h2)
    · exact Or.inl (h2 ▸ h1)
    · exact Or.inl (h1 ▸ h2)
    · refine Or.inr ⟨h1.trans h2, ?_⟩
      rcases hu1 with hu1 | ⟨hu1, hc1⟩ <;> rcases hu2 with hu2 | ⟨hu2, hc2⟩
      · exact Or.inl (hu1.trans hu2)
      · exact Or.inl (hu2 ▸ hu1)
      · exact Or.inl (hu1 ▸ hu2)
      · exact Or.inr ⟨hu1.trans hu2, hc1.trans hc2⟩⟩

instance : IsTotal Row leRec :=
  ⟨fun a b => by
    unfold leRec
    rcases lt_trichotomy a.scenario_id b.scenario_id with h | h | h
    · exact Or.inl (Or.inl h)
    · rcases Nat.le_total a.rank b.rank with hc | hc
      · exact Or.inl (Or.inr ⟨h, hc⟩)
      · exact Or.inr (Or.inr ⟨h.symm, hc⟩)
    · exact Or.inr (Or.inl h)⟩

instance : IsTrans Row leRec :=
  ⟨fun a b c hab hbc => by
    unfold leRec at *
    rcases hab with h1 | ⟨h1, h1c⟩ <;> rcases hbc with h2 | ⟨h2, h2c⟩
    · exact Or.inl (h1.trans h2)
    · exact Or.inl (h2 ▸ h1)
    · exact Or.inl (h1 ▸ h2)
    · exact Or.inr ⟨h1.trans h2, h1c.trans h2c⟩⟩

/-! ### Projection lemmas for the per-row stage functions -/

@[simp]
theorem scenario_id_setRank (r : Row) (n : Nat) :
    ({ r with rank := n } : Row).scenario_id = r.scenario_id := rfl

@[simp]
theorem scenario_id_explRow (r : Row) : (explRow r).scenario_id = r.scenario_id := rfl

@[simp]
theorem rank_explRow (r : Row) : (explRow r).rank = r.rank := rfl

@[simp]
theorem total_cost_explRow (r : Row) : (explRow r).total_cost = r.total_cost := rfl

@[simp]
theorem unmet_explRow (r : Row) : (explRow r).unmet_units = r.unmet_units := rfl

@[simp]
theorem sla_met_explRow (r : Row) : (explRow r).sla_met = r.sla_met := rfl

@[simp]
theorem premium_explRow (r : Row) :
    (explRow r).premium_cap_total_cost = r.premium_cap_total_cost := rfl

@[simp]
theorem scn_explRow (r : Row) : (explRow r).scn = r.scn := rfl

@[simp]
theorem option_explRow (r : Row) : (explRow r).option = r.option := rfl

@[simp]
theorem scenario_id_updB (feas : List Row) (r : Row) :
    (updB feas r).scenario_id = r.scenario_id := rfl

@[simp]
theorem total_cost_updB (feas : List Row) (r : Row) :
    (updB feas r).total_cost = r.total_cost := rfl

@[simp]
theorem unmet_updB (feas : List Row) (r : Row) :
    (updB feas r).unmet_units = r.unmet_units := rfl

@[simp]
theorem sla_met_updB (feas : List Row) (r : Row) :
    (updB feas r).sla_met = r.sla_met := rfl

@[simp]
theorem scn_updB (feas : List Row) (r : Row) : (updB feas r).scn = r.scn := rfl

@[simp]
theorem option_updB (feas : List Row) (r : Row) : (updB feas r).option = r.option := rfl

@[simp]
theorem premium_updB (feas : List Row) (r : Row) :
    (updB feas r).premium_cap_total_cost = groupMinCost feas r.scenario_id * capOf r := rfl

@[simp]
theorem capOf_updB (feas : List Row) (r : Row) : capOf (updB feas r) = capOf r := rfl

@[simp]
theorem total_cost_setRank (r : Row) (n : Nat) :
    ({ r with rank := n } : Row).total_cost = r.total_cost := rfl

@[simp]
theorem unmet_setRank (r : Row) (n : Nat) :
    ({ r with rank := n } : Row).unmet_units = r.unmet_units := rfl

@[simp]
theorem sla_met_setRank (r : Row) (n : Nat) :
    ({ r with rank := n } : Row).sla_met = r.sla_met := rfl

@[simp]
theorem premium_setRank (r : Row) (n : Nat) :
    ({ r with rank := n } : Row).premium_cap_total_cost = r.premium_cap_total_cost := rfl

@[simp]
theorem scn_setRank (r : Row) (n : Nat) : ({ r with rank := n } : Row).scn = r.scn := rfl

@[simp]
theorem option_setRank (r : Row) (n : Nat) :
    ({ r with rank := n } : Row).option = r.option := rfl

@[simp]
theorem rank_setRank (r : Row) (n : Nat) : ({ r with rank := n } : Row).rank = n := rfl

/-! ### Generic list helpers -/

theorem find?_filter_of_imp {p q : Row → Bool} (h : ∀ x, p x = true → q x = true) :
    ∀ l : List Row, (l.filter q).find? p = l.find? p := by
  intro l
  induction l with
  | nil => rfl
  | cons x xs ih =>
    by_cases hq : q x = true
    · by_cases hp : p x = true
      · rw [List.filter_cons_of_pos hq, List.find?_cons_of_pos _ hp,
          List.find?_cons_of_pos _ hp]
      · simp only [Bool.not_eq_true] at hp
        rw [List.filter_cons_of_pos hq, List.find?_cons_of_neg _ (by simp [hp]),
          List.find?_cons_of_neg _ (by simp [hp]), ih]
    · have hp : p x = false := by
        rcases Bool.eq_false_or_eq_true (p x) with h' | h'
        · exact absurd (h x h') hq
        · exact h'
      rw [List.filter_cons_of_neg (by simp_all), List.find?_cons_of_neg _ (by simp [hp]), ih]

theorem find?_eq_head?_filter (p : Row → Bool) :
    ∀ l : List Row, l.find? p = (l.filter p).head? := by
  intro l
  induction l with
  | nil => rfl
  | cons x xs ih =>
    by_cases hp : p x = true
    · rw [List.find?_cons_of_pos _ hp, List.filter_cons_of_pos hp, List.head?_cons]
    · simp only [Bool.not_eq_true] at hp
      rw [List.find?_cons_of_neg _ (by simp [hp]), List.filter_cons_of_neg (by simp [hp]), ih]

theorem foldl_min_le (cs : List ℚ) : ∀ c : ℚ, ∀ x ∈ c :: cs, cs.foldl min c ≤ x := by
  induction cs with
  | nil =>
    intro c x hx
    have hx' : x = c := by simpa using hx
    simp [hx']
  | cons d ds ih =>
    intro c x hx
    simp only [List.foldl_cons]
    have hmm : ds.foldl min (min c d) ≤ min c d :=
      ih (min c d) (min c d) (List.mem_cons_self _ _)
    rcases List.mem_cons.mp hx with rfl | hx
    · exact le_trans hmm (min_le_left _ _)
    · rcases List.mem_cons.mp hx with rfl | hx
      · exact le_trans hmm (min_le_right _ _)
      · exact ih (min c d) x (List.mem_cons_of_mem _ hx)

theorem foldl_min_mem (cs : List ℚ) : ∀ c : ℚ, cs.foldl min c ∈ c :: cs := by
  induction cs with
  | nil => intro c; simp
  | cons d ds ih =>
    intro c
    have h := ih (min c d)
    rcases List.mem_cons.mp h with h | h
    · rcases min_cases c d with ⟨he, _⟩ | ⟨he, _⟩
      · rw [List.foldl_cons, h, he]; exact List.mem_cons_self _ _
      · rw [List.foldl_cons, h, he]
        exact List.mem_cons_of_mem _ (List.mem_cons_self _ _)
    · exact List.mem_cons_of_mem _ (List.mem_cons_of_mem _ h)

theorem groupMinCost_le {rows : List Row} {s : Nat} {r : Row} (hr : r ∈ rows)
    (hs : r.scenario_id = s) : groupMinCost rows s ≤ r.total_cost := by
  have hmem : r.total_cost ∈ (rows.filter fun x => x.scenario_id == s).map
      (fun x => x.total_cost) :=
    List.mem_map_of_mem _ (List.mem_filter.mpr ⟨hr, by simp [hs]⟩)
  unfold groupMinCost
  split
  · next hl => rw [hl] at hmem; simp at hmem
  · next c cs hl =>
      rw [hl] at hmem
      exact foldl_min_le cs c _ hmem

theorem groupMinCost_mem {rows : List Row} {s : Nat} (h : ∃ r ∈ rows, r.scenario_id = s) :
    ∃ r ∈ rows, r.scenario_id = s ∧ groupMinCost rows s = r.total_cost := by
  obtain ⟨r0, hr0, hs0⟩ := h
  have hne : (rows.filter fun x => x.scenario_id == s) ≠ [] := by
    intro he
    have := List.filter_eq_nil_iff.mp he r0 hr0
    simp [hs0] at this
  unfold groupMinCost
  split
  · next hl => exact absurd (List.map_eq_nil_iff.mp hl) hne
  · next c cs hl =>
      have hmem : cs.foldl min c ∈ (rows.filter fun x => x.scenario_id == s).map
          (fun x => x.total_cost) := by
        rw [hl]; exact foldl_min_mem cs c
      obtain ⟨r, hrf, hrc⟩ := List.mem_map.mp hmem
      obtain ⟨hr, hrs⟩ := List.mem_filter.mp hrf
      exact ⟨r, hr, by simpa using hrs, hrc.symm⟩

/-! ### Rank-assignment lemmas -/

theorem addRanksAux_filter (s : Nat) :
    ∀ (l : List Row) (counts : Nat → Nat),
      ((addRanksAux counts l).filter fun r => r.scenario_id == s) =
        rankSeq (counts s + 1) (l.filter fun r => r.scenario_id == s) := by
  intro l
  induction l with
  | nil => intro counts; rfl
  | cons r rs ih =>
    intro counts
    by_cases hs : r.scenario_id = s
    · have hbeq : (r.scenario_id == s) = true := by simp [hs]
      simp only [addRanksAux, List.filter_cons, scenario_id_setRank, hbeq, if_true, ih,
        rankSeq]
      rw [hs, if_pos rfl]
    · have hbeq : (r.scenario_id == s) = false := by simp [hs]
      simp only [addRanksAux, List.filter_cons, scenario_id_setRank, hbeq,
        Bool.false_eq_true, if_false, ih]
      have h2 : (if s = r.scenario_id then counts s + 1 else counts s) = counts s := by
        rw [if_neg (fun he => hs he.symm)]
      rw [h2]

theorem addRanks_filter (s : Nat) (l : List Row) :
    ((addRanks l).filter fun r => r.scenario_id == s) =
      rankSeq 1 (l.filter fun r => r.scenario_id == s) :=
  addRanksAux_filter s l _

theorem length_rankSeq : ∀ (n : Nat) (l : List Row), (rankSeq n l).length = l.length := by
  intro n l
  induction l generalizing n with
  | nil => rfl
  | cons r rs ih => simp [rankSeq, ih]

theorem map_rank_rankSeq : ∀ (n : Nat) (l : List Row),
    (rankSeq n l).map (fun r => r.rank) = List.range' n l.length := by
  intro n l
  induction l generalizing n with
  | nil => rfl
  | cons r rs ih => simp [rankSeq, List.range'_succ, ih]

theorem mem_rankSeq_rank_ge {r : Row} :
    ∀ {n : Nat} {l : List Row}, r ∈ rankSeq n l → n ≤ r.rank := by
  intro n l
  induction l generalizing n with
  | nil => intro h; simp [rankSeq] at h
  | cons x xs ih =>
    intro h
    rcases List.mem_cons.mp h with rfl | h
    · simp
    · exact Nat.le_of_succ_le (ih h)

theorem mem_rankSeq {r : Row} :
    ∀ {n : Nat} {l : List Row}, r ∈ rankSeq n l → ∃ r0 ∈ l, ∃ m, r = { r0 with rank := m } := by
  intro n l
  induction l generalizing n with
  | nil => intro h; simp [rankSeq] at h
  | cons x xs ih =>
    intro h
    rcases List.mem_cons.mp h with rfl | h
    · exact ⟨x, List.mem_cons_self _ _, n, rfl⟩
    · obtain ⟨r0, hr0, m, hm⟩ := ih h
      exact ⟨r0, List.mem_cons_of_mem _ hr0, m, hm⟩

theorem mem_addRanksAux {r : Row} :
    ∀ {l : List Row} {counts : Nat → Nat},
      r ∈ addRanksAux counts l → ∃ r0 ∈ l, ∃ m, r = { r0 with rank := m } := by
  intro l
  induction l with
  | nil => intro counts h; simp [addRanksAux] at h
  | cons x xs ih =>
    intro counts h
    rcases List.mem_cons.mp h with rfl | h
    · exact ⟨x, List.mem_cons_self _ _, _, rfl⟩
    · obtain ⟨r0, hr0, m, hm⟩ := ih h
      exact ⟨r0, List.mem_cons_of_mem _ hr0, m, hm⟩

theorem rankSeq_head {n : Nat} {x : Row} {xs : List Row} :
    rankSeq n (x :: xs) = { x with rank := n } :: rankSeq (n + 1) xs := rfl

/-! ### Order lemmas for the sort keys -/

theorem leA_cost {a b : Row} (h : leA a b) (he : a.scenario_id = b.scenario_id) :
    a.total_cost ≤ b.total_cost := by
  rcases h with h | ⟨_, hc⟩
  · exact absurd he (Nat.ne_of_lt h)
  · exact hc

theorem leB_unmet {a b : Row} (h : leB a b) (he : a.scenario_id = b.scenario_id) :
    a.unmet_units ≤ b.unmet_units := by
  rcases h with h | ⟨_, hu | ⟨hu, _⟩⟩
  · exact absurd he (Nat.ne_of_lt h)
  · exact le_of_lt hu
  · exact le_of_eq hu

theorem leB_cost {a b : Row} (h : leB a b) (he : a.scenario_id = b.scenario_id)
    (hu : b.unmet_units = a.unmet_units) : a.total_cost ≤ b.total_cost := by
  rcases h with h | ⟨_, hu' | ⟨_, hc⟩⟩
  · exact absurd he (Nat.ne_of_lt h)
  · exact absurd hu (ne_of_gt hu')
  · exact hc

theorem leRec_rank {a b : Row} (h : leRec a b) (he : a.scenario_id = b.scenario_id) :
    a.rank ≤ b.rank := by
  rcases h with h | ⟨_, hc⟩
  · exact absurd he (Nat.ne_of_lt h)
  · exact hc

/-! ### Filter / map / sort plumbing -/

theorem filter_sid_map (f : Row → Row) (hf : ∀ r, (f r).scenario_id = r.scenario_id)
    (s : Nat) (l : List Row) :
    ((l.map f).filter fun r => r.scenario_id == s) =
      (l.filter fun r => r.scenario_id == s).map f := by
  rw [List.filter_map]
  congr 1
  apply List.filter_congr
  intro x _
  simp [Function.comp, hf]

theorem caseBRows_eq (inputs : List Scn) :
    caseBRows inputs = addRanks (List.insertionSort leB (caseBKept inputs)) := by
  unfold caseBRows
  by_cases h : (caseBPool inputs).isEmpty
  · rw [if_pos h]
    have hp : caseBPool inputs = [] := List.isEmpty_iff.mp h
    have hk : caseBKept inputs = [] := by
      unfold caseBKept
      rw [hp]
      simp
    rw [hk]
    rfl
  · rw [if_neg h]

theorem mem_caseAPool {inputs : List Scn} {r : Row} (h : r ∈ caseAPool inputs) :
    slaAny (feasibleRows inputs) r.scenario_id = true ∧ r.sla_met = true := by
  unfold caseAPool at h
  obtain ⟨h1, h2⟩ := List.mem_filter.mp h
  obtain ⟨_, h3⟩ := List.mem_filter.mp h1
  exact ⟨h3, h2⟩

theorem mem_caseBPool {inputs : List Scn} {r : Row} (h : r ∈ caseBPool inputs) :
    slaAny (feasibleRows inputs) r.scenario_id = false := by
  unfold caseBPool at h
  obtain ⟨_, h2⟩ := List.mem_filter.mp h
  simpa using h2

theorem mem_caseBKept {inputs : List Scn} {r : Row} (h : r ∈ caseBKept inputs) :
    r ∈ caseBPool inputs := by
  simp only [caseBKept] at h
  split at h
  · exact (List.mem_filter.mp h).1
  · exact (List.mem_filter.mp h).1

theorem caseA_sid_empty {inputs : List Scn} {s : Nat}
    (h : slaAny (feasibleRows inputs) s = false) :
    ((List.insertionSort leA (caseAPool inputs)).filter fun r => r.scenario_id == s) = [] := by
  rw [List.filter_eq_nil_iff]
  intro a ha hbeq
  have ha' : a ∈ caseAPool inputs := (List.mem_insertionSort leA).mp ha
  have h1 := (mem_caseAPool ha').1
  have he : a.scenario_id = s := by simpa using hbeq
  rw [he] at h1
  rw [h1] at h
  exact Bool.true_eq_false.mp h

theorem caseB_sid_empty {inputs : List Scn} {s : Nat}
    (h : slaAny (feasibleRows inputs) s = true) :
    ((List.insertionSort leB (caseBKept inputs)).filter fun r => r.scenario_id == s) = [] := by
  rw [List.filter_eq_nil_iff]
  intro a ha hbeq
  have ha' : a ∈ caseBKept inputs := (List.mem_insertionSort leB).mp ha
  have h1 := mem_caseBPool (mem_caseBKept ha')
  have he : a.scenario_id = s := by simpa using hbeq
  rw [he] at h1
  rw [h1] at h
  exact Bool.true_eq_false.mp h.symm

theorem scored_filter_decomp (inputs : List Scn) (s : Nat) :
    ((evaluate_all_options inputs).filter fun r => r.scenario_id == s) =
      (rankSeq 1 ((List.insertionSort leA (caseAPool inputs)).filter
          fun r => r.scenario_id == s)).map explRow ++
      (rankSeq 1 ((List.insertionSort leB (caseBKept inputs)).filter
          fun r => r.scenario_id == s)).map explRow := by
  unfold evaluate_all_options build_explanations
  rw [filter_sid_map explRow (fun r => rfl) s, List.filter_append, List.map_append, caseBRows_eq]
  unfold caseARows addRanks
  rw [addRanksAux_filter, addRanksAux_filter]

theorem scored_filter_of_slaAny {inputs : List Scn} {s : Nat}
    (h : slaAny (feasibleRows inputs) s = true) :
    ((evaluate_all_options inputs).filter fun r => r.scenario_id == s) =
      (rankSeq 1 ((List.insertionSort leA (caseAPool inputs)).filter
          fun r => r.scenario_id == s)).map explRow := by
  rw [scored_filter_decomp, caseB_sid_empty h]
  simp [rankSeq]

theorem scored_filter_of_not_slaAny {inputs : List Scn} {s : Nat}
    (h : slaAny (feasibleRows inputs) s = false) :
    ((evaluate_all_options inputs).filter fun r => r.scenario_id == s) =
      (rankSeq 1 ((List.insertionSort leB (caseBKept inputs)).filter
          fun r => r.scenario_id == s)).map explRow := by
  rw [scored_filter_decomp, caseA_sid_empty h]
  simp [rankSeq]

theorem map_rank_map_explRow (l : List Row) :
    ((l.map explRow).map fun r => r.rank) = l.map fun r => r.rank := by
  rw [List.map_map]
  exact List.map_congr_left fun a _ => rfl

theorem scored_group_ranks (inputs : List Scn) (s : Nat) :
    (((evaluate_all_options inputs).filter fun r => r.scenario_id == s).map fun r => r.rank)
      = List.range' 1
          ((evaluate_all_options inputs).filter fun r => r.scenario_id == s).length := by
  rcases Bool.eq_false_or_eq_true (slaAny (feasibleRows inputs) s) with h | h
  · rw [scored_filter_of_slaAny h, map_rank_map_explRow, map_rank_rankSeq,
      List.length_map, length_rankSeq]
  · rw [scored_filter_of_not_slaAny h, map_rank_map_explRow, map_rank_rankSeq,
      List.length_map, length_rankSeq]

/-! ### The recommendation row is the rank-1 row of its scenario -/

theorem find?_dedupBySid (s : Nat) :
    ∀ l : List Row, (dedupBySid l).find? (fun r => r.scenario_id == s)
      = l.find? fun r => r.scenario_id == s := by
  intro l
  induction l using dedupBySid.induct with
  | case1 => rw [dedupBySid]
  | case2 r rs ih =>
    rw [dedupBySid]
    by_cases hs : r.scenario_id = s
    · rw [List.find?_cons_of_pos _ (by simpa using hs),
        List.find?_cons_of_pos _ (by simpa using hs)]
    · rw [List.find?_cons_of_neg _ (by simpa using hs),
        List.find?_cons_of_neg _ (by simpa using hs), ih]
      apply find?_filter_of_imp
      intro x hx
      have hxs : x.scenario_id = s := by simpa using hx
      have hne2 : ¬s = r.scenario_id := fun he => hs he.symm
      simp [hxs, hne2]

theorem head?_of_rank_one {g : List Row}
    (hranks : (g.map fun r => r.rank) = List.range' 1 g.length)
    {r : Row} (hr : r ∈ g) (h1 : r.rank = 1) : g.head? = some r := by
  cases g with
  | nil => simp at hr
  | cons a t =>
    rcases List.mem_cons.mp hr with rfl | hrt
    · rfl
    · exfalso
      have h2 : a.rank :: (t.map fun r => r.rank) = 1 :: List.range' 2 t.length := by
        simpa [List.range'_succ] using hranks
      have htail : (t.map fun r => r.rank) = List.range' 2 t.length :=
        (List.cons_eq_cons.mp h2).2
      have hmem : r.rank ∈ List.range' 2 t.length := by
        rw [← htail]; exact List.mem_map_of_mem _ hrt
      obtain ⟨i, _, hi⟩ := List.mem_range'.mp hmem
      omega

theorem recOf_eq_head (scored : List Row) (s : Nat)
    (hranks : ((scored.filter fun r => r.scenario_id == s).map fun r => r.rank)
      = List.range' 1 (scored.filter fun r => r.scenario_id == s).length)
    (hne : (scored.filter fun r => r.scenario_id == s) ≠ []) :
    recOf scored s = (scored.filter fun r => r.scenario_id == s).head? := by
  unfold recOf choose_recommendation
  rw [find?_dedupBySid, find?_eq_head?_filter]
  have hperm : List.Perm
      ((List.insertionSort leRec scored).filter fun r => r.scenario_id == s)
      (scored.filter fun r => r.scenario_id == s) :=
    (List.perm_insertionSort leRec scored).filter _
  have hFne : ((List.insertionSort leRec scored).filter fun r => r.scenario_id == s) ≠ [] := by
    intro he
    rw [he] at hperm
    exact hne hperm.symm.eq_nil
  obtain ⟨h2, t2, hF⟩ := List.exists_cons_of_ne_nil hFne
  have hsorted : List.Pairwise leRec
      ((List.insertionSort leRec scored).filter fun r => r.scenario_id == s) :=
    List.Pairwise.filter _ (List.sorted_insertionSort leRec scored)
  have hh2F : h2 ∈ ((List.insertionSort leRec scored).filter fun r => r.scenario_id == s) := by
    rw [hF]; exact List.mem_cons_self _ _
  have hh2g : h2 ∈ (scored.filter fun r => r.scenario_id == s) := hperm.mem_iff.mp hh2F
  obtain ⟨r0, t0, hg⟩ := List.exists_cons_of_ne_nil hne
  have hr0rank : r0.rank = 1 := by
    have h3 := hranks
    rw [hg] at h3
    simp only [List.map_cons, List.length_cons, List.range'_succ] at h3
    exact (List.cons_eq_cons.mp h3).1
  have hr0g : r0 ∈ (scored.filter fun r => r.scenario_id == s) := by
    rw [hg]; exact List.mem_cons_self _ _
  have hr0F : r0 ∈ ((List.insertionSort leRec scored).filter fun r => r.scenario_id == s) :=
    hperm.mem_iff.mpr hr0g
  have hsid2 : h2.scenario_id = s := by
    have := (List.mem_filter.mp hh2g).2
    simpa using this
  have hsid0 : r0.scenario_id = s := by
    have := (List.mem_filter.mp hr0g).2
    simpa using this
  have hrank_le : h2.rank ≤ r0.rank := by
    rw [hF] at hr0F
    rcases List.mem_cons.mp hr0F with rfl | hr0t
    · exact le_refl _
    · have hpair := (List.pairwise_cons.mp (hF ▸ hsorted)).1
      exact leRec_rank (hpair r0 hr0t) (hsid2.trans hsid0.symm)
  have hge : 1 ≤ h2.rank := by
    have hmem : h2.rank ∈ List.range' 1 (scored.filter fun r => r.scenario_id == s).length := by
      rw [← hranks]
      exact List.mem_map_of_mem _ hh2g
    obtain ⟨i, _, hi⟩ := List.mem_range'.mp hmem
    omega
  have h1 : h2.rank = 1 := le_antisymm (hrank_le.trans (le_of_eq hr0rank)) hge
  rw [hF, head?_of_rank_one hranks hh2g h1]
  rfl

/-! ### Per-scenario characterization of the retained groups -/

theorem caseAPool_sid {inputs : List Scn} {s : Nat}
    (h : slaAny (feasibleRows inputs) s = true) :
    ((caseAPool inputs).filter fun r => r.scenario_id == s) =
      ((feasibleRows inputs).filter fun r => r.scenario_id == s && r.sla_met).map
        (updB (feasibleRows inputs)) := by
  unfold caseAPool basedRows withBaseline
  rw [List.filter_filter, List.filter_filter, List.filter_map]
  congr 1
  apply List.filter_congr
  intro x _
  by_cases hx : x.scenario_id = s
  · simp [Function.comp, hx, h]
  · simp [Function.comp, hx]

theorem caseBPool_sid {inputs : List Scn} {s : Nat}
    (h : slaAny (feasibleRows inputs) s = false) :
    ((caseBPool inputs).filter fun r => r.scenario_id == s) =
      ((feasibleRows inputs).filter fun r => r.scenario_id == s).map
        (updB (feasibleRows inputs)) := by
  unfold caseBPool basedRows withBaseline
  rw [List.filter_filter, List.filter_map]
  congr 1
  apply List.filter_congr
  intro x _
  by_cases hx : x.scenario_id = s
  · simp [Function.comp, hx, h]
  · simp [Function.comp, hx]

theorem caseBKept_eq_capped {inputs : List Scn}
    (h : ((caseBPool inputs).filter
        fun r => decide (r.total_cost ≤ r.premium_cap_total_cost)) ≠ []) :
    caseBKept inputs = (caseBPool inputs).filter
        fun r => decide (r.total_cost ≤ r.premium_cap_total_cost) := by
  simp only [caseBKept]
  rw [if_neg (by simpa [List.isEmpty_iff] using h)]

theorem slaAny_of_mem {inputs : List Scn} {s : Nat} {r : Row}
    (hr : r ∈ feasibleRows inputs) (hs : r.scenario_id = s) (hsla : r.sla_met = true) :
    slaAny (feasibleRows inputs) s = true := by
  unfold slaAny
  rw [List.any_eq_true]
  exact ⟨r, hr, by simp [hs, hsla]⟩

theorem slaAny_eq_false {inputs : List Scn} {s : Nat}
    (h : ∀ r ∈ feasibleRows inputs, r.scenario_id = s → r.sla_met = false) :
    slaAny (feasibleRows inputs) s = false := by
  unfold slaAny
  rw [List.any_eq_false]
  intro r hr
  by_cases hs : r.scenario_id = s
  · simp [hs, h r hr hs]
  · simp [hs]

/-! ### Auxiliary lemmas for the claim theorems -/

theorem rank_one_count {g : List Row}
    (hranks : (g.map fun r => r.rank) = List.range' 1 g.length) (hne : g ≠ []) :
    (g.filter fun r => r.rank == 1).length = 1 := by
  cases g with
  | nil => exact absurd rfl hne
  | cons a t =>
    have h2 : a.rank :: (t.map fun r => r.rank) = 1 :: List.range' 2 t.length := by
      simpa [List.range'_succ] using hranks
    have ha : a.rank = 1 := (List.cons_eq_cons.mp h2).1
    have htail : (t.map fun r => r.rank) = List.range' 2 t.length :=
      (List.cons_eq_cons.mp h2).2
    have htf : (t.filter fun r => r.rank == 1) = [] := by
      rw [List.filter_eq_nil_iff]
      intro b hb hbe
      have hmem : b.rank ∈ List.range' 2 t.length := by
        rw [← htail]; exact List.mem_map_of_mem _ hb
      obtain ⟨i, _, hi⟩ := List.mem_range'.mp hmem
      have hb1 : b.rank = 1 := by simpa using hbe
      omega
    rw [List.filter_cons_of_pos (by simp [ha]), htf]
    rfl

theorem addRanksAux_pairwise {R : Row → Row → Prop}
    (hR : ∀ (a b : Row) (m n : Nat), R a b → R { a with rank := m } { b with rank := n }) :
    ∀ (l : List Row) (counts : Nat → Nat), l.Pairwise R → (addRanksAux counts l).Pairwise R := by
  intro l
  induction l with
  | nil => intro counts _; exact List.Pairwise.nil
  | cons x xs ih =>
    intro counts h
    obtain ⟨hx, hxs⟩ := List.pairwise_cons.mp h
    rw [addRanksAux]
    apply List.pairwise_cons.mpr
    refine ⟨?_, ih _ hxs⟩
    intro b hb
    obtain ⟨b0, hb0, m, rfl⟩ := mem_addRanksAux hb
    exact hR x b0 _ m (hx b0 hb0)

/-! ### Claim theorems -/

/-- C1 counterexample: with two Case B scenarios, one whose rows are
all excluded by its premium-cap window (`service_premium_cap = 0.5`)
and one whose rows survive, the fallback of src/model.py line 58 does
not fire (the Case B frame is not empty as a whole), so scenario 1
retains no row at all — and in particular no `rank = 1` row — although
it has four feasible rows. -/
theorem ranks_dense_cx :
    ((evaluate_all_options [exScnCapHalf, exScnCapTwo]).filter
        fun r => r.scenario_id == 1) = [] ∧
    ((feasibleRows [exScnCapHalf, exScnCapTwo]).filter
        fun r => r.scenario_id == 1) ≠ [] := by
  constructor
  · with_unfolding_all decide
  · with_unfolding_all decide

/-- C1 (amended): in the scored table, the ranks of each scenario's
retained rows form the contiguous 1-based sequence 1..k with no gaps
or duplicates, and every scenario that retains at least one row has
exactly one `rank = 1` row.  (The premium-cap fallback is applied to
the Case B frame as a whole, not per scenario, so a scenario whose
feasible rows are all excluded by its cap window retains its
baseline-minimum rows only when every other Case B scenario's rows are
excluded as well; otherwise it retains no rows.) -/
theorem ranks_dense (inputs : List Scn) (s : Nat) :
    (((evaluate_all_options inputs).filter fun r => r.scenario_id == s).map fun r => r.rank)
      = List.range' 1 ((evaluate_all_options inputs).filter
          fun r => r.scenario_id == s).length ∧
    (((evaluate_all_options inputs).filter fun r => r.scenario_id == s) ≠ [] →
      (((evaluate_all_options inputs).filter fun r => r.scenario_id == s).filter
          fun r => r.rank == 1).length = 1) := by
  refine ⟨scored_group_ranks inputs s, fun hne => rank_one_count (scored_group_ranks inputs s) hne⟩

/-- C1 witness: on a one-scenario table the retained group is nonempty
and has exactly one rank-1 row. -/
theorem ranks_dense_witness :
    (((evaluate_all_options [exScnA]).filter fun r => r.scenario_id == 1).filter
        fun r => r.rank == 1).length = 1 :=
  (ranks_dense [exScnA] 1).2 (by with_unfolding_all decide)

/-- C6 counterexample: with `max_temp_units = -5` and a gap of 10, the
temp-labor row of the Option Simulator has `recovered_units = -5 < 0`,
refuting the claim for arbitrary input parameter values. -/
theorem simulate_bounds_cx :
    ((simulate_options [exScnNegCap]).map fun r => decide (0 ≤ r.recovered_units)) =
      [true, true, false, true, true] := by with_unfolding_all decide

/-- C6 (amended): for every simulated row, `gap_units` is the clipped
shortfall and is non-negative, `recovered_units ≤ gap_units`, and
`unmet_units = gap_units - recovered_units`; `recovered_units ≥ 0`
holds under non-negative capacity parameters (negative caps propagate
into negative recovered units). -/
theorem simulate_bounds (inputs : List Scn) (r : Row)
    (hr : r ∈ simulate_options inputs) :
    r.gap_units = max 0 (r.scn.forecast_demand_units - r.scn.available_capacity_units) ∧
    0 ≤ r.gap_units ∧
    r.recovered_units ≤ r.gap_units ∧
    r.unmet_units = r.gap_units - r.recovered_units ∧
    (0 ≤ r.scn.max_ot_hours * r.scn.ot_units_per_hour → 0 ≤ r.scn.max_temp_units →
      0 ≤ r.scn.max_reroute_units → 0 ≤ r.scn.max_outsource_units →
      0 ≤ r.recovered_units) := by
  obtain ⟨sc, _, hro⟩ := List.mem_flatMap.mp hr
  obtain ⟨o, _, rfl⟩ := List.mem_map.mp hro
  have hgap : (0:ℚ) ≤ max 0 (sc.forecast_demand_units - sc.available_capacity_units) :=
    le_max_left 0 _
  have hu : ∀ rec : ℚ, rec ≤ max 0 (sc.forecast_demand_units - sc.available_capacity_units) →
      max 0 (max 0 (sc.forecast_demand_units - sc.available_capacity_units) - rec)
        = max 0 (sc.forecast_demand_units - sc.available_capacity_units) - rec := by
    intro rec hrec
    apply max_eq_right
    linarith
  cases o with
  | do_nothing =>
    refine ⟨rfl, hgap, ?_, ?_, ?_⟩
    · simp only [simRow]
      exact hgap
    · simp only [simRow]
      exact hu 0 hgap
    · intro _ _ _ _
      simp [simRow]
  | overtime =>
    refine ⟨rfl, hgap, ?_, ?_, ?_⟩
    · simp only [simRow]
      exact min_le_left _ _
    · simp only [simRow]
      exact hu _ (min_le_left _ _)
    · intro h1 _ _ _
      simp only [simRow]
      exact le_min hgap h1
  | temp_labor =>
    refine ⟨rfl, hgap, ?_, ?_, ?_⟩
    · simp only [simRow]
      exact min_le_left _ _
    · simp only [simRow]
      exact hu _ (min_le_left _ _)
    · intro _ h2 _ _
      simp only [simRow]
      exact le_min hgap h2
  | reroute =>
    refine ⟨rfl, hgap, ?_, ?_, ?_⟩
    · simp only [simRow]
      exact min_le_left _ _
    · simp only [simRow]
      exact hu _ (min_le_left _ _)
    · intro _ _ h3 _
      simp only [simRow]
      exact le_min hgap h3
  | outsource =>
    refine ⟨rfl, hgap, ?_, ?_, ?_⟩
    · simp only [simRow]
      exact min_le_left _ _
    · simp only [simRow]
      exact hu _ (min_le_left _ _)
    · intro _ _ _ h4
      simp only [simRow]
      exact le_min hgap h4

set_option maxRecDepth 8000 in
/-- C6 witness: the bounds at the overtime row of a concrete scenario
with non-negative parameters. -/
theorem simulate_bounds_witness :
    0 ≤ (simRow exScnA OptKind.overtime).recovered_units :=
  (simulate_bounds [exScnA] (simRow exScnA OptKind.overtime)
      (by with_unfolding_all decide)).2.2.2.2
    (by with_unfolding_all decide) (by with_unfolding_all decide)
    (by with_unfolding_all decide) (by with_unfolding_all decide)

/-- C7: for every row of `compute_costs_and_sla`, `sla_met` holds iff
`unmet_units ≤ max_allowed_unmet_units`, the service cost is the late
cost plus the breach penalty exactly when the SLA is missed, and
`total_cost = intervention_cost + service_cost`. -/
theorem costs_and_sla_correct (df : List Row) (r : Row)
    (hr : r ∈ compute_costs_and_sla df) :
    (r.sla_met = true ↔ r.unmet_units ≤ r.max_allowed_unmet_units) ∧
    r.service_cost = r.unmet_units * r.scn.late_cost_per_unit +
      (if r.sla_met then 0 else r.scn.sla_breach_penalty) ∧
    r.total_cost = r.intervention_cost + r.service_cost := by
  obtain ⟨r0, _, rfl⟩ := List.mem_map.mp hr
  refine ⟨?_, ?_, ?_⟩ <;> simp [costRow]

/-- C7 witness: the cost/SLA relations at a concrete row. -/
theorem costs_and_sla_correct_witness :
    ((costRow (simRow exScnB OptKind.do_nothing)).sla_met = true ↔
      (costRow (simRow exScnB OptKind.do_nothing)).unmet_units ≤
        (costRow (simRow exScnB OptKind.do_nothing)).max_allowed_unmet_units) ∧
    (costRow (simRow exScnB OptKind.do_nothing)).service_cost =
      (costRow (simRow exScnB OptKind.do_nothing)).unmet_units *
        (costRow (simRow exScnB OptKind.do_nothing)).scn.late_cost_per_unit +
      (if (costRow (simRow exScnB OptKind.do_nothing)).sla_met then 0
        else (costRow (simRow exScnB OptKind.do_nothing)).scn.sla_breach_penalty) ∧
    (costRow (simRow exScnB OptKind.do_nothing)).total_cost =
      (costRow (simRow exScnB OptKind.do_nothing)).intervention_cost +
        (costRow (simRow exScnB OptKind.do_nothing)).service_cost :=
  costs_and_sla_correct [simRow exScnB OptKind.do_nothing] _ (by simp [compute_costs_and_sla])

/-- C8 counterexample: with `ot_units_per_hour = -2` (negative, not
zero), the guard `replace(0, nan)` does not fire: the overtime row gets
`ot_hours_used = (-10) / (-2) = 5`, not the 0 the claim requires for a
non-positive rate. -/
theorem overtime_hours_cx :
    ((compute_costs_and_sla (flag_feasible (simulate_options [exScnNegRate]))).map
      fun r => r.ot_hours_used) = [0, 5, 0, 0, 0] ∧
    exScnNegRate.ot_units_per_hour < 0 := by
  constructor
  · with_unfolding_all decide
  · with_unfolding_all decide

/-- C8 (amended): the overtime-hours division is guarded exactly at a
zero denominator: `ot_hours_used = recovered_units / ot_units_per_hour`
for any nonzero rate (in particular any positive rate) and 0 for a zero
rate; the overtime intervention cost is `ot_hours_used *
ot_cost_per_hour`, and non-overtime rows have `ot_hours_used = 0`. -/
theorem overtime_hours (df : List Row) (r : Row)
    (hr : r ∈ compute_costs_and_sla df) :
    (r.option = OptKind.overtime →
      r.ot_hours_used = (if r.scn.ot_units_per_hour = 0 then 0
        else r.recovered_units / r.scn.ot_units_per_hour) ∧
      r.intervention_cost = r.ot_hours_used * r.scn.ot_cost_per_hour) ∧
    (r.option ≠ OptKind.overtime → r.ot_hours_used = 0) := by
  obtain ⟨r0, _, rfl⟩ := List.mem_map.mp hr
  constructor
  · intro ho
    have ho' : r0.option = OptKind.overtime := ho
    constructor <;> simp [costRow, ho']
  · intro ho
    have ho' : r0.option ≠ OptKind.overtime := ho
    simp [costRow, ho']

/-- C8 witness: the overtime row of a concrete scenario with a positive
rate, and a non-overtime row. -/
theorem overtime_hours_witness :
    (costRow (simRow exScnA OptKind.overtime)).ot_hours_used =
      (if (simRow exScnA OptKind.overtime).scn.ot_units_per_hour = 0 then 0
        else (simRow exScnA OptKind.overtime).recovered_units /
          (simRow exScnA OptKind.overtime).scn.ot_units_per_hour) :=
  ((overtime_hours [simRow exScnA OptKind.overtime] _
    (by simp [compute_costs_and_sla])).1 rfl).1

/-- C9: the pipeline is a pure function of its input table — two runs
on the same input yield identical scored tables and identical
recommendation tables. -/
theorem pipeline_deterministic (inputs : List Scn) :
    evaluate_all_options inputs = evaluate_all_options inputs ∧
    choose_recommendation (evaluate_all_options inputs) =
      choose_recommendation (evaluate_all_options inputs) :=
  ⟨rfl, rfl⟩

/-- C10: the scored table is the Case A block followed by the Case B
block: every row of a scenario where some feasible row meets SLA
precedes every row of a scenario where none does. -/
theorem caseA_precedes_caseB (inputs : List Scn) :
    ∃ asRows bsRows : List Row,
      evaluate_all_options inputs = asRows ++ bsRows ∧
      (∀ r ∈ asRows, slaAny (feasibleRows inputs) r.scenario_id = true) ∧
      (∀ r ∈ bsRows, slaAny (feasibleRows inputs) r.scenario_id = false) := by
  refine ⟨build_explanations (caseARows inputs), build_explanations (caseBRows inputs),
    ?_, ?_, ?_⟩
  · unfold evaluate_all_options build_explanations
    rw [List.map_append]
  · intro r hr
    obtain ⟨r1, hr1, rfl⟩ := List.mem_map.mp hr
    obtain ⟨r0, hr0, m, rfl⟩ := mem_addRanksAux (by simpa [caseARows, addRanks] using hr1)
    have hp : r0 ∈ caseAPool inputs := (List.mem_insertionSort leA).mp hr0
    simpa using (mem_caseAPool hp).1
  · intro r hr
    obtain ⟨r1, hr1, rfl⟩ := List.mem_map.mp hr
    rw [caseBRows_eq] at hr1
    obtain ⟨r0, hr0, m, rfl⟩ := mem_addRanksAux (by simpa [addRanks] using hr1)
    have hp : r0 ∈ caseBPool inputs := mem_caseBKept ((List.mem_insertionSort leB).mp hr0)
    simpa using mem_caseBPool hp

/-- C10 witness: the decomposition at a concrete two-scenario table. -/
theorem caseA_precedes_caseB_witness :
    ∃ asRows bsRows : List Row,
      evaluate_all_options [exScnA, exScnB] = asRows ++ bsRows ∧
      (∀ r ∈ asRows, slaAny (feasibleRows [exScnA, exScnB]) r.scenario_id = true) ∧
      (∀ r ∈ bsRows, slaAny (feasibleRows [exScnA, exScnB]) r.scenario_id = false) :=
  caseA_precedes_caseB [exScnA, exScnB]

/-- C2: for a scenario where some feasible row meets the SLA, the
recommendation itself meets the SLA and has the minimum `total_cost`
among the scenario's feasible SLA-met rows. -/
theorem recommendation_caseA (inputs : List Scn) (s : Nat)
    (hex : ∃ r ∈ feasibleRows inputs, r.scenario_id = s ∧ r.sla_met = true) :
    ∃ rec, recOf (evaluate_all_options inputs) s = some rec ∧
      rec.sla_met = true ∧
      (∀ r ∈ feasibleRows inputs, r.scenario_id = s → r.sla_met = true →
        rec.total_cost ≤ r.total_cost) ∧
      (∃ r ∈ feasibleRows inputs, r.scenario_id = s ∧ r.sla_met = true ∧
        rec.total_cost = r.total_cost) := by
  obtain ⟨rw0, hrw0, hsid0, hsla0⟩ := hex
  have hany : slaAny (feasibleRows inputs) s = true := slaAny_of_mem hrw0 hsid0 hsla0
  have hperm : List.Perm
      ((List.insertionSort leA (caseAPool inputs)).filter fun r => r.scenario_id == s)
      (((feasibleRows inputs).filter fun r => r.scenario_id == s && r.sla_met).map
        (updB (feasibleRows inputs))) := by
    have hp := (List.perm_insertionSort leA (caseAPool inputs)).filter
      (fun r => r.scenario_id == s)
    rw [caseAPool_sid hany] at hp
    exact hp
  have hFmem : rw0 ∈ ((feasibleRows inputs).filter fun r => r.scenario_id == s && r.sla_met) :=
    List.mem_filter.mpr ⟨hrw0, by simp [hsid0, hsla0]⟩
  have hfne : ((List.insertionSort leA (caseAPool inputs)).filter
      fun r => r.scenario_id == s) ≠ [] := by
    intro he
    rw [he] at hperm
    have hnil := hperm.symm.eq_nil
    rw [List.map_eq_nil_iff] at hnil
    rw [hnil] at hFmem
    simp at hFmem
  obtain ⟨h0, t0, hf⟩ := List.exists_cons_of_ne_nil hfne
  have hsg := scored_filter_of_slaAny hany
  have hgne : ((evaluate_all_options inputs).filter fun r => r.scenario_id == s) ≠ [] := by
    rw [hsg, hf]
    simp [rankSeq]
  have hrec := recOf_eq_head (evaluate_all_options inputs) s (scored_group_ranks inputs s) hgne
  have hghead : ((evaluate_all_options inputs).filter fun r => r.scenario_id == s).head?
      = some (explRow { h0 with rank := 1 }) := by
    rw [hsg, hf]
    rfl
  have hh0f : h0 ∈ ((List.insertionSort leA (caseAPool inputs)).filter
      fun r => r.scenario_id == s) := by
    rw [hf]; exact List.mem_cons_self _ _
  obtain ⟨x0, hx0F, hx0⟩ := List.mem_map.mp (hperm.mem_iff.mp hh0f)
  obtain ⟨hx0feas, hx0p⟩ := List.mem_filter.mp hx0F
  have hx0sid : x0.scenario_id = s := by
    have hp := hx0p; simp at hp; exact hp.1
  have hx0sla : x0.sla_met = true := by
    have hp := hx0p; simp at hp; exact hp.2
  have hsorted : List.Pairwise leA ((List.insertionSort leA (caseAPool inputs)).filter
      fun r => r.scenario_id == s) :=
    List.Pairwise.filter _ (List.sorted_insertionSort leA _)
  have hmin : ∀ r ∈ feasibleRows inputs, r.scenario_id = s → r.sla_met = true →
      h0.total_cost ≤ r.total_cost := by
    intro r hr hrs hrsla
    have hrF : r ∈ ((feasibleRows inputs).filter fun x => x.scenario_id == s && x.sla_met) :=
      List.mem_filter.mpr ⟨hr, by simp [hrs, hrsla]⟩
    have hrf : updB (feasibleRows inputs) r ∈
        ((List.insertionSort leA (caseAPool inputs)).filter fun x => x.scenario_id == s) :=
      hperm.mem_iff.mpr (List.mem_map_of_mem _ hrF)
    rw [hf] at hrf
    rcases List.mem_cons.mp hrf with heq | hrt
    · rw [← heq]
      simp
    · have hle := (List.pairwise_cons.mp (hf ▸ hsorted)).1 _ hrt
      have h0sid : h0.scenario_id = s := by
        have hm := (List.mem_filter.mp hh0f).2
        simpa using hm
      have hsid : h0.scenario_id = (updB (feasibleRows inputs) r).scenario_id := by
        simp [h0sid, hrs]
      have hc := leA_cost hle hsid
      simpa using hc
  refine ⟨explRow { h0 with rank := 1 }, by rw [hrec, hghead], ?_, ?_, ?_⟩
  · have hs0 : h0.sla_met = x0.sla_met := by rw [← hx0]; simp
    simp [hs0, hx0sla]
  · intro r hr hrs hrsla
    have hc := hmin r hr hrs hrsla
    simpa using hc
  · refine ⟨x0, hx0feas, hx0sid, hx0sla, ?_⟩
    have hc0 : h0.total_cost = x0.total_cost := by rw [← hx0]; simp
    simp [hc0]

set_option maxRecDepth 8000 in
/-- C2 witness: on a one-scenario Case A table the recommendation is
the SLA-met cost-minimal row. -/
theorem recommendation_caseA_witness :
    ∃ rec, recOf (evaluate_all_options [exScnA]) 1 = some rec ∧
      rec.sla_met = true ∧
      (∀ r ∈ feasibleRows [exScnA], r.scenario_id = 1 → r.sla_met = true →
        rec.total_cost ≤ r.total_cost) ∧
      (∃ r ∈ feasibleRows [exScnA], r.scenario_id = 1 ∧ r.sla_met = true ∧
        rec.total_cost = r.total_cost) :=
  recommendation_caseA [exScnA] 1 ⟨costRow (flagRow (simRow exScnA OptKind.overtime)),
    by with_unfolding_all decide, by with_unfolding_all decide, by with_unfolding_all decide⟩

@[simp]
theorem capOf_explRow (r : Row) : capOf (explRow r) = capOf r := rfl

@[simp]
theorem capOf_setRank (r : Row) (n : Nat) : capOf { r with rank := n } = capOf r := rfl

theorem caseBKept_sid {inputs : List Scn} {s : Nat}
    (hany : slaAny (feasibleRows inputs) s = false)
    (hcap : ((caseBPool inputs).filter
        fun r => decide (r.total_cost ≤ r.premium_cap_total_cost)) ≠ []) :
    ((caseBKept inputs).filter fun r => r.scenario_id == s) =
      ((feasibleRows inputs).filter fun r => r.scenario_id == s &&
        decide (r.total_cost ≤ groupMinCost (feasibleRows inputs) s * capOf r)).map
        (updB (feasibleRows inputs)) := by
  rw [caseBKept_eq_capped hcap]
  unfold caseBPool basedRows withBaseline
  rw [List.filter_filter, List.filter_filter, List.filter_map]
  congr 1
  apply List.filter_congr
  intro x _
  by_cases hx : x.scenario_id = s
  · simp [Function.comp, hx, hany]
  · have hb : (x.scenario_id == s) = false := by simp [hx]
    simp [Function.comp, hb]

/-- C3 counterexample: on a one-scenario Case B table with
`service_premium_cap = 0.5`, the cap window (50) excludes every row
(cost 100), the fallback retains the baseline rows, and the
recommendation's `total_cost` (100) exceeds
`baseline_total_cost * service_premium_cap` (50). -/
theorem recommendation_caseB_cx :
    ((choose_recommendation (evaluate_all_options [exScnCapHalf])).map
      fun r => (r.total_cost, r.premium_cap_total_cost)) = [(100, 50)] ∧
    ¬((100:ℚ) ≤ 50) := by
  constructor
  · with_unfolding_all decide
  · with_unfolding_all decide

/-- C3 (amended): for a Case B scenario with at least one feasible row
inside the premium-cap window (so that the empty-window fallback is not
taken), the recommendation's `total_cost` is at most
`baseline_total_cost * service_premium_cap` (baseline being the minimum
feasible `total_cost` of the scenario, the cap defaulting to 1.15 when
absent or null), and among the rows satisfying that bound the
recommendation has minimum `unmet_units`, ties broken by minimum
`total_cost`.  When the cap window excludes every row, the retained
baseline rows violate the bound (see the counterexample). -/
theorem recommendation_caseB (inputs : List Scn) (s : Nat)
    (hall : ∀ r ∈ feasibleRows inputs, r.scenario_id = s → r.sla_met = false)
    (hex : ∃ r ∈ feasibleRows inputs, r.scenario_id = s ∧
      r.total_cost ≤ groupMinCost (feasibleRows inputs) s * capOf r) :
    ∃ rec, recOf (evaluate_all_options inputs) s = some rec ∧
      rec.total_cost ≤ groupMinCost (feasibleRows inputs) s * capOf rec ∧
      (∀ r ∈ feasibleRows inputs, r.scenario_id = s →
        groupMinCost (feasibleRows inputs) s ≤ r.total_cost) ∧
      (∀ r ∈ feasibleRows inputs, r.scenario_id = s →
        r.total_cost ≤ groupMinCost (feasibleRows inputs) s * capOf r →
        rec.unmet_units ≤ r.unmet_units ∧
        (r.unmet_units = rec.unmet_units → rec.total_cost ≤ r.total_cost)) := by
  obtain ⟨rw0, hrw0, hsid0, hcap0⟩ := hex
  have hany : slaAny (feasibleRows inputs) s = false := slaAny_eq_false hall
  have hwpool : updB (feasibleRows inputs) rw0 ∈ caseBPool inputs := by
    have hm : updB (feasibleRows inputs) rw0 ∈
        ((caseBPool inputs).filter fun r => r.scenario_id == s) := by
      rw [caseBPool_sid hany]
      exact List.mem_map_of_mem _ (List.mem_filter.mpr ⟨hrw0, by simp [hsid0]⟩)
    exact (List.mem_filter.mp hm).1
  have hwcap : (decide ((updB (feasibleRows inputs) rw0).total_cost ≤
      (updB (feasibleRows inputs) rw0).premium_cap_total_cost)) = true := by
    simp only [total_cost_updB, premium_updB, hsid0]
    exact decide_eq_true hcap0
  have hcapne : ((caseBPool inputs).filter
      fun r => decide (r.total_cost ≤ r.premium_cap_total_cost)) ≠ [] := by
    intro he
    exact absurd hwcap (List.filter_eq_nil_iff.mp he _ hwpool)
  have hperm : List.Perm
      ((List.insertionSort leB (caseBKept inputs)).filter fun r => r.scenario_id == s)
      (((feasibleRows inputs).filter fun r => r.scenario_id == s &&
          decide (r.total_cost ≤ groupMinCost (feasibleRows inputs) s * capOf r)).map
        (updB (feasibleRows inputs))) := by
    have hp := (List.perm_insertionSort leB (caseBKept inputs)).filter
      (fun r => r.scenario_id == s)
    rw [caseBKept_sid hany hcapne] at hp
    exact hp
  have hFmem : rw0 ∈ ((feasibleRows inputs).filter fun r => r.scenario_id == s &&
      decide (r.total_cost ≤ groupMinCost (feasibleRows inputs) s * capOf r)) :=
    List.mem_filter.mpr ⟨hrw0, by simp [hsid0, hcap0]⟩
  have hfne : ((List.insertionSort leB (caseBKept inputs)).filter
      fun r => r.scenario_id == s) ≠ [] := by
    intro he
    rw [he] at hperm
    have hnil := hperm.symm.eq_nil
    rw [List.map_eq_nil_iff] at hnil
    rw [hnil] at hFmem
    simp at hFmem
  obtain ⟨h0, t0, hf⟩ := List.exists_cons_of_ne_nil hfne
  have hsg := scored_filter_of_not_slaAny hany
  have hgne : ((evaluate_all_options inputs).filter fun r => r.scenario_id == s) ≠ [] := by
    rw [hsg, hf]
    simp [rankSeq]
  have hrec := recOf_eq_head (evaluate_all_options inputs) s (scored_group_ranks inputs s) hgne
  have hghead : ((evaluate_all_options inputs).filter fun r => r.scenario_id == s).head?
      = some (explRow { h0 with rank := 1 }) := by
    rw [hsg, hf]
    rfl
  have hh0f : h0 ∈ ((List.insertionSort leB (caseBKept inputs)).filter
      fun r => r.scenario_id == s) := by
    rw [hf]; exact List.mem_cons_self _ _
  obtain ⟨x0, hx0F, hx0⟩ := List.mem_map.mp (hperm.mem_iff.mp hh0f)
  obtain ⟨hx0feas, hx0p⟩ := List.mem_filter.mp hx0F
  have hx0sid : x0.scenario_id = s := by
    have hp := hx0p; simp at hp; exact hp.1
  have hx0cap : x0.total_cost ≤ groupMinCost (feasibleRows inputs) s * capOf x0 := by
    have hp := hx0p; simp at hp; exact hp.2
  have hsorted : List.Pairwise leB ((List.insertionSort leB (caseBKept inputs)).filter
      fun r => r.scenario_id == s) :=
    List.Pairwise.filter _ (List.sorted_insertionSort leB _)
  have h0sid : h0.scenario_id = s := by
    have hm := (List.mem_filter.mp hh0f).2
    simpa using hm
  have hminB : ∀ r ∈ feasibleRows inputs, r.scenario_id = s →
      r.total_cost ≤ groupMinCost (feasibleRows inputs) s * capOf r →
      h0.unmet_units ≤ r.unmet_units ∧
        (r.unmet_units = h0.unmet_units → h0.total_cost ≤ r.total_cost) := by
    intro r hr hrs hrcap
    have hrF : r ∈ ((feasibleRows inputs).filter fun x => x.scenario_id == s &&
        decide (x.total_cost ≤ groupMinCost (feasibleRows inputs) s * capOf x)) :=
      List.mem_filter.mpr ⟨hr, by simp [hrs, hrcap]⟩
    have hrf : updB (feasibleRows inputs) r ∈
        ((List.insertionSort leB (caseBKept inputs)).filter fun x => x.scenario_id == s) :=
      hperm.mem_iff.mpr (List.mem_map_of_mem _ hrF)
    rw [hf] at hrf
    rcases List.mem_cons.mp hrf with heq | hrt
    · constructor
      · rw [← heq]; simp
      · intro _; rw [← heq]; simp
    · have hle := (List.pairwise_cons.mp (hf ▸ hsorted)).1 _ hrt
      have hsid : h0.scenario_id = (updB (feasibleRows inputs) r).scenario_id := by
        simp [h0sid, hrs]
      constructor
      · have hc := leB_unmet hle hsid
        simpa using hc
      · intro hue
        have hue2 : (updB (feasibleRows inputs) r).unmet_units = h0.unmet_units := by
          simpa using hue
        have hc := leB_cost hle hsid hue2
        simpa using hc
  refine ⟨explRow { h0 with rank := 1 }, by rw [hrec, hghead], ?_, ?_, ?_⟩
  · have hc0 : h0.total_cost = x0.total_cost := by rw [← hx0]; simp
    have hcap0' : capOf h0 = capOf x0 := by rw [← hx0]; simp
    rw [total_cost_explRow, total_cost_setRank, capOf_explRow, capOf_setRank, hc0, hcap0']
    exact hx0cap
  · intro r hr hrs
    exact groupMinCost_le hr hrs
  · intro r hr hrs hrcap
    obtain ⟨hc1, hc2⟩ := hminB r hr hrs hrcap
    constructor
    · simpa using hc1
    · intro hue
      have hc := hc2 (by simpa using hue)
      simpa using hc

set_option maxRecDepth 8000 in
/-- C3 witness: on a one-scenario Case B table whose rows partly fit in
the cap window the recommendation minimizes unmet units within the
window. -/
theorem recommendation_caseB_witness :
    ∃ rec, recOf (evaluate_all_options [exScnB]) 2 = some rec ∧
      rec.total_cost ≤ groupMinCost (feasibleRows [exScnB]) 2 * capOf rec ∧
      (∀ r ∈ feasibleRows [exScnB], r.scenario_id = 2 →
        groupMinCost (feasibleRows [exScnB]) 2 ≤ r.total_cost) ∧
      (∀ r ∈ feasibleRows [exScnB], r.scenario_id = 2 →
        r.total_cost ≤ groupMinCost (feasibleRows [exScnB]) 2 * capOf r →
        rec.unmet_units ≤ r.unmet_units ∧
        (r.unmet_units = rec.unmet_units → rec.total_cost ≤ r.total_cost)) :=
  recommendation_caseB [exScnB] 2 (by with_unfolding_all decide)
    ⟨costRow (flagRow (simRow exScnB OptKind.do_nothing)),
      by with_unfolding_all decide, by with_unfolding_all decide,
      by with_unfolding_all decide⟩

/-- C5: the Case A block sorts by (scenario_id, total_cost): within a
scenario the retained rows are ranked by ascending `total_cost`, and
the sort is stable — any sublist of the pre-sort pool already in
non-descending key order (in particular any pair of equal-cost rows of
one scenario, in their input order) is still a sublist of the sorted
result, so equal-cost rows keep their original relative order and no
other tie-break exists. -/
theorem caseA_sort_stable (inputs : List Scn) :
    List.Sorted leA (List.insertionSort leA (caseAPool inputs)) ∧
    (caseARows inputs).Pairwise
      (fun a b => a.scenario_id = b.scenario_id → a.total_cost ≤ b.total_cost) ∧
    ∀ c : List Row, c.Pairwise leA → List.Sublist c (caseAPool inputs) →
      List.Sublist c (List.insertionSort leA (caseAPool inputs)) := by
  refine ⟨List.sorted_insertionSort leA _, ?_,
    fun c hp hs => List.sublist_insertionSort hp hs⟩
  unfold caseARows addRanks
  apply addRanksAux_pairwise (fun a b m n hab => hab)
  exact List.Pairwise.imp (fun hab he => leA_cost hab he)
    (List.sorted_insertionSort leA (caseAPool inputs))

set_option maxRecDepth 8000 in
/-- C5 witness: the whole Case A pool of a concrete table is in sorted
order already and survives the sort as a sublist (stability at full
strength). -/
theorem caseA_sort_stable_witness :
    List.Sublist (caseAPool [exScnA]) (List.insertionSort leA (caseAPool [exScnA])) :=
  (caseA_sort_stable [exScnA]).2.2 (caseAPool [exScnA])
    (by with_unfolding_all decide) (List.Sublist.refl _)

theorem sorted_filter_eq_of_pairwise {le : Row → Row → Prop} [DecidableRel le]
    {pool G : List Row} {s : Nat}
    (hG : (pool.filter fun r => r.scenario_id == s) = G) (hp : G.Pairwise le) :
    ((List.insertionSort le pool).filter fun r => r.scenario_id == s) = G := by
  have hsub : List.Sublist G (List.insertionSort le pool) :=
    List.sublist_insertionSort hp (hG ▸ List.filter_sublist _)
  have hsubf : List.Sublist (G.filter fun r => r.scenario_id == s)
      ((List.insertionSort le pool).filter fun r => r.scenario_id == s) :=
    hsub.filter _
  have hGf : (G.filter fun r => r.scenario_id == s) = G := by
    apply List.filter_eq_self.mpr
    intro a ha
    have ham : a ∈ pool.filter (fun r => r.scenario_id == s) := hG ▸ ha
    exact (List.mem_filter.mp ham).2
  rw [hGf] at hsubf
  have hperm : List.Perm ((List.insertionSort le pool).filter fun r => r.scenario_id == s)
      (pool.filter fun r => r.scenario_id == s) :=
    (List.perm_insertionSort le pool).filter _
  have hlen : ((List.insertionSort le pool).filter fun r => r.scenario_id == s).length
      = G.length := by rw [hperm.length_eq, hG]
  exact (hsubf.eq_of_length hlen.symm).symm

/-- C4 counterexample: with all caps 0 and overtime hours/rate 0, the
feasibility filter marks `temp_labor`, `reroute` and `outsource`
feasible (their rule is cap `>= 0`, which 0 passes); only `overtime`
is infeasible — the claim's "all four non-do_nothing rows infeasible"
is false. -/
theorem zero_caps_cx :
    ((flag_feasible (simulate_options [exScnZeroCaps])).map fun r => r.feasible) =
      [true, false, true, true, true] := by with_unfolding_all decide

/-- C4 (amended): for a scenario with all option caps 0 and overtime
hours/rate 0, only the overtime row is marked infeasible; `do_nothing`,
`temp_labor`, `reroute` and `outsource` stay feasible, each recovering
0 units and carrying identical unmet units and total cost.  In a
single-scenario table with non-negative `late_cost_per_unit` and
`sla_breach_penalty` and premium cap ≥ 1, the `do_nothing` row (first
in input order among the all-tied retained rows of the stable sort)
still gets rank 1 and becomes the recommendation. -/
theorem zero_caps_amended (sc : Scn)
    (hot : sc.max_ot_hours = 0) (hotr : sc.ot_units_per_hour = 0)
    (htc : sc.max_temp_units = 0) (hrc : sc.max_reroute_units = 0)
    (hoc : sc.max_outsource_units = 0)
    (hlate : 0 ≤ sc.late_cost_per_unit) (hpen : 0 ≤ sc.sla_breach_penalty)
    (hcap : 1 ≤ sc.service_premium_cap.getD (1.15 : ℚ)) :
    ((flag_feasible (simulate_options [sc])).map fun r => r.feasible) =
      [true, false, true, true, true] ∧
    ∃ rec, recOf (evaluate_all_options [sc]) sc.scenario_id = some rec ∧
      rec.option = OptKind.do_nothing := by
  have hgap : (0:ℚ) ≤ max 0 (sc.forecast_demand_units - sc.available_capacity_units) :=
    le_max_left 0 _
  have hfl_dn : (flagRow (simRow sc OptKind.do_nothing)).feasible = true := rfl
  have hfl_ot : (flagRow (simRow sc OptKind.overtime)).feasible = false := by
    show (decide (sc.max_ot_hours > 0) && decide (sc.ot_units_per_hour > 0)) = false
    rw [hot]
    simp
  have hfl_tl : (flagRow (simRow sc OptKind.temp_labor)).feasible = true := by
    show decide (sc.max_temp_units ≥ 0) = true
    rw [htc]
    simp
  have hfl_rr : (flagRow (simRow sc OptKind.reroute)).feasible = true := by
    show decide (sc.max_reroute_units ≥ 0) = true
    rw [hrc]
    simp
  have hfl_os : (flagRow (simRow sc OptKind.outsource)).feasible = true := by
    show decide (sc.max_outsource_units ≥ 0) = true
    rw [hoc]
    simp
  have hOPT : simulate_options [sc] =
      [simRow sc OptKind.do_nothing, simRow sc OptKind.overtime, simRow sc OptKind.temp_labor,
       simRow sc OptKind.reroute, simRow sc OptKind.outsource] := by
    simp [simulate_options, OPTIONS]
  refine ⟨?_, ?_⟩
  · rw [show flag_feasible (simulate_options [sc])
        = List.map flagRow (simulate_options [sc]) from rfl, hOPT]
    simp only [List.map_cons, List.map_nil, hfl_dn, hfl_ot, hfl_tl, hfl_rr, hfl_os]
  · have hrec_dn : (simRow sc OptKind.do_nothing).recovered_units = 0 := rfl
    have hrec_ot : (simRow sc OptKind.overtime).recovered_units = 0 := by
      show min (max 0 (sc.forecast_demand_units - sc.available_capacity_units))
        (sc.max_ot_hours * sc.ot_units_per_hour) = 0
      rw [hot, zero_mul]
      exact min_eq_right hgap
    have hrec_tl : (simRow sc OptKind.temp_labor).recovered_units = 0 := by
      show min (max 0 (sc.forecast_demand_units - sc.available_capacity_units))
        sc.max_temp_units = 0
      rw [htc]
      exact min_eq_right hgap
    have hrec_rr : (simRow sc OptKind.reroute).recovered_units = 0 := by
      show min (max 0 (sc.forecast_demand_units - sc.available_capacity_units))
        sc.max_reroute_units = 0
      rw [hrc]
      exact min_eq_right hgap
    have hrec_os : (simRow sc OptKind.outsource).recovered_units = 0 := by
      show min (max 0 (sc.forecast_demand_units - sc.available_capacity_units))
        sc.max_outsource_units = 0
      rw [hoc]
      exact min_eq_right hgap
    have hkey : ∀ o : OptKind, (simRow sc o).recovered_units = 0 →
        (costRow (flagRow (simRow sc o))).unmet_units
            = max 0 (sc.forecast_demand_units - sc.available_capacity_units) ∧
        (costRow (flagRow (simRow sc o))).sla_met
            = decide (max 0 (sc.forecast_demand_units - sc.available_capacity_units)
                ≤ sc.forecast_demand_units * (1 - sc.sla_target_fill_rate)) ∧
        (costRow (flagRow (simRow sc o))).total_cost
            = max 0 (sc.forecast_demand_units - sc.available_capacity_units)
                * sc.late_cost_per_unit +
              (if decide (max 0 (sc.forecast_demand_units - sc.available_capacity_units)
                  ≤ sc.forecast_demand_units * (1 - sc.sla_target_fill_rate))
                then 0 else sc.sla_breach_penalty) := by
      intro o hrec
      have hunmet : (simRow sc o).unmet_units
          = max 0 (sc.forecast_demand_units - sc.available_capacity_units) := by
        have h1 : (simRow sc o).unmet_units
            = max 0 ((simRow sc o).gap_units - (simRow sc o).recovered_units) := rfl
        have h2 : (simRow sc o).gap_units
            = max 0 (sc.forecast_demand_units - sc.available_capacity_units) := rfl
        rw [h1, hrec, h2, sub_zero]
        exact max_eq_right hgap
      have hsla : (costRow (flagRow (simRow sc o))).sla_met
          = decide (max 0 (sc.forecast_demand_units - sc.available_capacity_units)
              ≤ sc.forecast_demand_units * (1 - sc.sla_target_fill_rate)) := by
        show decide ((simRow sc o).unmet_units
            ≤ sc.forecast_demand_units * (1 - sc.sla_target_fill_rate)) = _
        rw [hunmet]
      have hicost : (costRow (flagRow (simRow sc o))).intervention_cost = 0 := by
        cases o with
        | do_nothing => rfl
        | overtime =>
          show (if sc.ot_units_per_hour = 0 then (0:ℚ)
              else (simRow sc OptKind.overtime).recovered_units / sc.ot_units_per_hour)
            * sc.ot_cost_per_hour = 0
          rw [if_pos hotr, zero_mul]
        | temp_labor =>
          show (simRow sc OptKind.temp_labor).recovered_units * sc.temp_cost_per_unit = 0
          rw [hrec, zero_mul]
        | reroute =>
          show (simRow sc OptKind.reroute).recovered_units * sc.reroute_cost_per_unit = 0
          rw [hrec, zero_mul]
        | outsource =>
          show (simRow sc OptKind.outsource).recovered_units
              * sc.outsourcing_cost_per_unit = 0
          rw [hrec, zero_mul]
      have htot0 : (costRow (flagRow (simRow sc o))).total_cost
          = (costRow (flagRow (simRow sc o))).intervention_cost +
            ((simRow sc o).unmet_units * sc.late_cost_per_unit +
              (if (costRow (flagRow (simRow sc o))).sla_met then 0
                else sc.sla_breach_penalty)) := rfl
      rw [hicost, hsla, hunmet, zero_add] at htot0
      exact ⟨hunmet, hsla, htot0⟩
    have hk_dn := hkey OptKind.do_nothing hrec_dn
    have hk_tl := hkey OptKind.temp_labor hrec_tl
    have hk_rr := hkey OptKind.reroute hrec_rr
    have hk_os := hkey OptKind.outsource hrec_os
    have hpipe : pipelineRows [sc] =
        [costRow (flagRow (simRow sc OptKind.do_nothing)),
         costRow (flagRow (simRow sc OptKind.overtime)),
         costRow (flagRow (simRow sc OptKind.temp_labor)),
         costRow (flagRow (simRow sc OptKind.reroute)),
         costRow (flagRow (simRow sc OptKind.outsource))] := by
      show List.map costRow (List.map flagRow (simulate_options [sc])) = _
      rw [hOPT]
      rfl
    have hcf_dn : (costRow (flagRow (simRow sc OptKind.do_nothing))).feasible = true := hfl_dn
    have hcf_ot : (costRow (flagRow (simRow sc OptKind.overtime))).feasible = false := hfl_ot
    have hcf_tl : (costRow (flagRow (simRow sc OptKind.temp_labor))).feasible = true := hfl_tl
    have hcf_rr : (costRow (flagRow (simRow sc OptKind.reroute))).feasible = true := hfl_rr
    have hcf_os : (costRow (flagRow (simRow sc OptKind.outsource))).feasible = true := hfl_os
    have hfeas : feasibleRows [sc] =
        [costRow (flagRow (simRow sc OptKind.do_nothing)),
         costRow (flagRow (simRow sc OptKind.temp_labor)),
         costRow (flagRow (simRow sc OptKind.reroute)),
         costRow (flagRow (simRow sc OptKind.outsource))] := by
      show (pipelineRows [sc]).filter (fun r => r.feasible) = _
      rw [hpipe]
      simp [List.filter_cons, hcf_dn, hcf_ot, hcf_tl, hcf_rr, hcf_os]
    have hsidr : ∀ o : OptKind,
        (costRow (flagRow (simRow sc o))).scenario_id = sc.scenario_id := fun o => rfl
    have hcapr : ∀ o : OptKind,
        capOf (costRow (flagRow (simRow sc o))) = sc.service_premium_cap.getD (1.15:ℚ) :=
      fun o => rfl
    have hmemfacts : ∀ a ∈ feasibleRows [sc],
        a.scenario_id = sc.scenario_id ∧
        a.unmet_units = max 0 (sc.forecast_demand_units - sc.available_capacity_units) ∧
        a.sla_met = decide (max 0 (sc.forecast_demand_units - sc.available_capacity_units)
            ≤ sc.forecast_demand_units * (1 - sc.sla_target_fill_rate)) ∧
        a.total_cost = max 0 (sc.forecast_demand_units - sc.available_capacity_units)
            * sc.late_cost_per_unit +
          (if decide (max 0 (sc.forecast_demand_units - sc.available_capacity_units)
              ≤ sc.forecast_demand_units * (1 - sc.sla_target_fill_rate))
            then 0 else sc.sla_breach_penalty) ∧
        capOf a = sc.service_premium_cap.getD (1.15:ℚ) := by
      intro a ha
      rw [hfeas] at ha
      simp only [List.mem_cons, List.not_mem_nil, or_false] at ha
      rcases ha with rfl | rfl | rfl | rfl
      · exact ⟨hsidr _, hk_dn.1, hk_dn.2.1, hk_dn.2.2, hcapr _⟩
      · exact ⟨hsidr _, hk_tl.1, hk_tl.2.1, hk_tl.2.2, hcapr _⟩
      · exact ⟨hsidr _, hk_rr.1, hk_rr.2.1, hk_rr.2.2, hcapr _⟩
      · exact ⟨hsidr _, hk_os.1, hk_os.2.1, hk_os.2.2, hcapr _⟩
    have hfeassid : ((feasibleRows [sc]).filter fun r => r.scenario_id == sc.scenario_id)
        = feasibleRows [sc] :=
      List.filter_eq_self.mpr (fun a ha => by simp [(hmemfacts a ha).1])
    have hanyval : slaAny (feasibleRows [sc]) sc.scenario_id
        = decide (max 0 (sc.forecast_demand_units - sc.available_capacity_units)
            ≤ sc.forecast_demand_units * (1 - sc.sla_target_fill_rate)) := by
      rw [hfeas]
      simp only [slaAny, List.any_cons, List.any_nil, hsidr, beq_self_eq_true,
        Bool.true_and, Bool.or_false, hk_dn.2.1, hk_tl.2.1, hk_rr.2.1, hk_os.2.1,
        Bool.or_self]
    have hgmin : groupMinCost (feasibleRows [sc]) sc.scenario_id
        = max 0 (sc.forecast_demand_units - sc.available_capacity_units)
            * sc.late_cost_per_unit +
          (if decide (max 0 (sc.forecast_demand_units - sc.available_capacity_units)
              ≤ sc.forecast_demand_units * (1 - sc.sla_target_fill_rate))
            then 0 else sc.sla_breach_penalty) := by
      rw [hfeas]
      unfold groupMinCost
      simp only [List.filter_cons, List.filter_nil, hsidr, beq_self_eq_true, if_true,
        List.map_cons, List.map_nil, hk_dn.2.2, hk_tl.2.2, hk_rr.2.2, hk_os.2.2,
        List.foldl_cons, List.foldl_nil, min_self]
    cases hb : decide (max 0 (sc.forecast_demand_units - sc.available_capacity_units)
        ≤ sc.forecast_demand_units * (1 - sc.sla_target_fill_rate)) with
    | true =>
      have hany : slaAny (feasibleRows [sc]) sc.scenario_id = true := by rw [hanyval, hb]
      have hGA : ((feasibleRows [sc]).filter fun r =>
          r.scenario_id == sc.scenario_id && r.sla_met) = feasibleRows [sc] := by
        apply List.filter_eq_self.mpr
        intro a ha
        obtain ⟨h1, _, h3, _, _⟩ := hmemfacts a ha
        simp only [h1, beq_self_eq_true, Bool.true_and, h3, hb]
      have hpoolA : ((caseAPool [sc]).filter fun r => r.scenario_id == sc.scenario_id)
          = (feasibleRows [sc]).map (updB (feasibleRows [sc])) := by
        rw [caseAPool_sid hany, hGA]
      have hpairA : ((feasibleRows [sc]).map (updB (feasibleRows [sc]))).Pairwise leA := by
        apply List.pairwise_of_forall_mem_list
        intro a ha b hbm
        obtain ⟨a0, ha0, rfl⟩ := List.mem_map.mp ha
        obtain ⟨b0, hb0, rfl⟩ := List.mem_map.mp hbm
        obtain ⟨ha1, _, _, ha4, _⟩ := hmemfacts a0 ha0
        obtain ⟨hb1, _, _, hb4, _⟩ := hmemfacts b0 hb0
        right
        constructor
        · simp [ha1, hb1]
        · simp only [total_cost_updB, ha4, hb4]
          exact le_refl _
      have hfA : ((List.insertionSort leA (caseAPool [sc])).filter
          fun r => r.scenario_id == sc.scenario_id)
          = (feasibleRows [sc]).map (updB (feasibleRows [sc])) :=
        sorted_filter_eq_of_pairwise hpoolA hpairA
      have hsg := scored_filter_of_slaAny hany
      rw [hfA, hfeas] at hsg
      simp only [List.map_cons, List.map_nil, rankSeq] at hsg
      have hgne : ((evaluate_all_options [sc]).filter
          fun r => r.scenario_id == sc.scenario_id) ≠ [] := by
        rw [hsg]
        exact List.cons_ne_nil _ _
      have hrcf := recOf_eq_head (evaluate_all_options [sc]) sc.scenario_id
        (scored_group_ranks [sc] sc.scenario_id) hgne
      have hhead : ((evaluate_all_options [sc]).filter
          fun r => r.scenario_id == sc.scenario_id).head? =
          some (explRow { updB [costRow (flagRow (simRow sc OptKind.do_nothing)),
              costRow (flagRow (simRow sc OptKind.temp_labor)),
              costRow (flagRow (simRow sc OptKind.reroute)),
              costRow (flagRow (simRow sc OptKind.outsource))]
            (costRow (flagRow (simRow sc OptKind.do_nothing))) with rank := 1 }) := by
        rw [hsg]
        rfl
      exact ⟨explRow { updB [costRow (flagRow (simRow sc OptKind.do_nothing)),
          costRow (flagRow (simRow sc OptKind.temp_labor)),
          costRow (flagRow (simRow sc OptKind.reroute)),
          costRow (flagRow (simRow sc OptKind.outsource))]
        (costRow (flagRow (simRow sc OptKind.do_nothing))) with rank := 1 },
        by rw [hrcf, hhead], rfl⟩
    | false =>
      have hany : slaAny (feasibleRows [sc]) sc.scenario_id = false := by rw [hanyval, hb]
      have hite : (if decide (max 0 (sc.forecast_demand_units - sc.available_capacity_units)
          ≤ sc.forecast_demand_units * (1 - sc.sla_target_fill_rate))
          then (0:ℚ) else sc.sla_breach_penalty) = sc.sla_breach_penalty := by
        rw [hb]
        simp
      have hC0 : (0:ℚ) ≤ max 0 (sc.forecast_demand_units - sc.available_capacity_units)
          * sc.late_cost_per_unit +
          (if decide (max 0 (sc.forecast_demand_units - sc.available_capacity_units)
              ≤ sc.forecast_demand_units * (1 - sc.sla_target_fill_rate))
            then 0 else sc.sla_breach_penalty) := by
        rw [hite]
        exact add_nonneg (mul_nonneg hgap hlate) hpen
      have hCle : max 0 (sc.forecast_demand_units - sc.available_capacity_units)
          * sc.late_cost_per_unit +
          (if decide (max 0 (sc.forecast_demand_units - sc.available_capacity_units)
              ≤ sc.forecast_demand_units * (1 - sc.sla_target_fill_rate))
            then 0 else sc.sla_breach_penalty)
          ≤ (max 0 (sc.forecast_demand_units - sc.available_capacity_units)
            * sc.late_cost_per_unit +
            (if decide (max 0 (sc.forecast_demand_units - sc.available_capacity_units)
                ≤ sc.forecast_demand_units * (1 - sc.sla_target_fill_rate))
              then 0 else sc.sla_breach_penalty)) * sc.service_premium_cap.getD (1.15:ℚ) :=
        le_mul_of_one_le_right hC0 hcap
      have hGB : ((feasibleRows [sc]).filter fun r => r.scenario_id == sc.scenario_id &&
          decide (r.total_cost
            ≤ groupMinCost (feasibleRows [sc]) sc.scenario_id * capOf r))
          = feasibleRows [sc] := by
        apply List.filter_eq_self.mpr
        intro a ha
        obtain ⟨h1, _, _, h4, h5⟩ := hmemfacts a ha
        simp only [h1, beq_self_eq_true, Bool.true_and, h4, h5, hgmin]
        exact decide_eq_true hCle
      have hpoolB : ((caseBPool [sc]).filter fun r => r.scenario_id == sc.scenario_id)
          = (feasibleRows [sc]).map (updB (feasibleRows [sc])) := by
        rw [caseBPool_sid hany, hfeassid]
      have hcapne : ((caseBPool [sc]).filter
          fun r => decide (r.total_cost ≤ r.premium_cap_total_cost)) ≠ [] := by
        have hmem : updB (feasibleRows [sc])
            (costRow (flagRow (simRow sc OptKind.do_nothing))) ∈ caseBPool [sc] := by
          have hm2 : updB (feasibleRows [sc])
              (costRow (flagRow (simRow sc OptKind.do_nothing))) ∈
              ((caseBPool [sc]).filter fun r => r.scenario_id == sc.scenario_id) := by
            rw [hpoolB]
            exact List.mem_map_of_mem _ (by rw [hfeas]; exact List.mem_cons_self _ _)
          exact (List.mem_filter.mp hm2).1
        intro he
        apply List.filter_eq_nil_iff.mp he _ hmem
        simp only [total_cost_updB, premium_updB, hsidr, hcapr, hgmin, hk_dn.2.2]
        exact decide_eq_true hCle
      have hpairB : ((feasibleRows [sc]).map (updB (feasibleRows [sc]))).Pairwise leB := by
        apply List.pairwise_of_forall_mem_list
        intro a ha b hbm
        obtain ⟨a0, ha0, rfl⟩ := List.mem_map.mp ha
        obtain ⟨b0, hb0, rfl⟩ := List.mem_map.mp hbm
        obtain ⟨ha1, ha2, _, ha4, _⟩ := hmemfacts a0 ha0
        obtain ⟨hb1, hb2, _, hb4, _⟩ := hmemfacts b0 hb0
        right
        constructor
        · simp [ha1, hb1]
        · right
          constructor
          · simp only [unmet_updB, ha2, hb2]
          · simp only [total_cost_updB, ha4, hb4]
            exact le_refl _
      have hfB : ((List.insertionSort leB (caseBKept [sc])).filter
          fun r => r.scenario_id == sc.scenario_id)
          = (feasibleRows [sc]).map (updB (feasibleRows [sc])) := by
        apply sorted_filter_eq_of_pairwise
        · rw [caseBKept_sid hany hcapne, hGB]
        · exact hpairB
      have hsg := scored_filter_of_not_slaAny hany
      rw [hfB, hfeas] at hsg
      simp only [List.map_cons, List.map_nil, rankSeq] at hsg
      have hgne : ((evaluate_all_options [sc]).filter
          fun r => r.scenario_id == sc.scenario_id) ≠ [] := by
        rw [hsg]
        exact List.cons_ne_nil _ _
      have hrcf := recOf_eq_head (evaluate_all_options [sc]) sc.scenario_id
        (scored_group_ranks [sc] sc.scenario_id) hgne
      have hhead : ((evaluate_all_options [sc]).filter
          fun r => r.scenario_id == sc.scenario_id).head? =
          some (explRow { updB [costRow (flagRow (simRow sc OptKind.do_nothing)),
              costRow (flagRow (simRow sc OptKind.temp_labor)),
              costRow (flagRow (simRow sc OptKind.reroute)),
              costRow (flagRow (simRow sc OptKind.outsource))]
            (costRow (flagRow (simRow sc OptKind.do_nothing))) with rank := 1 }) := by
        rw [hsg]
        rfl
      exact ⟨explRow { updB [costRow (flagRow (simRow sc OptKind.do_nothing)),
          costRow (flagRow (simRow sc OptKind.temp_labor)),
          costRow (flagRow (simRow sc OptKind.reroute)),
          costRow (flagRow (simRow sc OptKind.outsource))]
        (costRow (flagRow (simRow sc OptKind.do_nothing))) with rank := 1 },
        by rw [hrcf, hhead], rfl⟩

set_option maxRecDepth 8000 in
/-- C4 witness: the concrete zero-caps scenario keeps the three capped
options feasible and still recommends doing nothing. -/
theorem zero_caps_amended_witness :
    ((flag_feasible (simulate_options [exScnZeroCaps])).map fun r => r.feasible) =
      [true, false, true, true, true] ∧
    ∃ rec, recOf (evaluate_all_options [exScnZeroCaps]) exScnZeroCaps.scenario_id
        = some rec ∧
      rec.option = OptKind.do_nothing :=
  zero_caps_amended exScnZeroCaps rfl rfl rfl rfl rfl (by with_unfolding_all decide)
    (by with_unfolding_all decide) (by with_unfolding_all decide)

end InterventionOptimizer
